import Mathlib

/-! gpbackup: TOC index and incremental-backup bookkeeping.

A shallow embedding of `utils/toc.go` and `backup/incremental.go`.

Conventions of the embedding:

* a Go `string` is a Lean `String`; a byte of a dump file is a `Char`, so a
  dump file is a `List Char` and `string(contents)` is `String.mk contents`;
* a Go `map[string]V` is an association list read with `List.lookup`
  (the nil map is `[]`);
* `uint64` values are `Nat`s, with the wrap-around written out where the
  source subtracts or converts;
* a run that ends in `gplog.FatalOnError` or in a Go panic returns `none`.
-/

set_option autoImplicit false

/-! ## Collaborators that are not part of the embedded sources -/

namespace utils

/-- Modelled from the spec: `MakeFQN` (not in the embedded sources) builds the
schema-qualified name `schema.name` of an object. -/
def MakeFQN (schema name : String) : String :=
  schema ++ "." ++ name

/-- Modelled from the spec: the Set Filter (`NewIncludeSet`, `NewExcludeSet`,
`MatchesFilter`, `Equals` are not in the embedded sources) is an include or
exclude membership predicate over a set of strings in which the empty set
matches everything, and two sets are equal when they hold the same elements
whatever the order or the repetitions of the lists they were built from. -/
structure FilterSet where
  elems : List String
  isExclude : Bool
  alwaysMatchesFilter : Bool
  deriving Repr

/-- Modelled from the spec: include filter over `list`; the empty list matches
every item. -/
def NewIncludeSet (list : List String) : FilterSet :=
  { elems := list, isExclude := false, alwaysMatchesFilter := list.isEmpty }

/-- Modelled from the spec: exclude filter over `list`; the empty list
excludes nothing. -/
def NewExcludeSet (list : List String) : FilterSet :=
  { elems := list, isExclude := true, alwaysMatchesFilter := list.isEmpty }

/-- Modelled from the spec: membership test of the Set Filter. -/
def FilterSet.MatchesFilter (s : FilterSet) (item : String) : Bool :=
  if s.alwaysMatchesFilter then true
  else if s.isExclude then !(s.elems.contains item)
  else s.elems.contains item

/-- Modelled from the spec: unordered-set equality of two Set Filters. -/
def FilterSet.Equals (s t : FilterSet) : Bool :=
  s.elems.all (fun x => t.elems.contains x) && t.elems.all (fun x => s.elems.contains x)

end utils

/-- Go standard library `path.Split`: splits immediately after the final
slash; without a slash the directory is empty and the file is the whole path. -/
def pathSplit (p : String) : String × String :=
  let r := p.data.reverse
  (String.mk (r.dropWhile (fun c => c != '/')).reverse,
   String.mk (r.takeWhile (fun c => c != '/')).reverse)

namespace toc

/-- Modelled from the spec: the append-optimized storage metadata of a table,
`{modificationCount, lastDDLTimestamp}`, two integers compared by equality
(the type is declared in a package that is not in the embedded sources). -/
structure AOEntry where
  Modcount : Int
  LastDDLTimestamp : Int
  deriving DecidableEq, Repr

/-- The Go zero value of `AOEntry`, which a map read of a missing key yields. -/
def AOEntry.zero : AOEntry :=
  { Modcount := 0, LastDDLTimestamp := 0 }

/-- Modelled from the spec: the per-table change counters of a backup,
keyed by table FQN. -/
structure IncrementalEntries where
  AO : List (String × AOEntry)
  deriving Repr

/-- Modelled from the spec: the part of a backup's TOC that the incremental
differ reads. -/
structure TOC where
  IncrementalMetadata : IncrementalEntries
  deriving Repr

end toc

namespace history

/-- Modelled from the spec: snapshot of the flags that produced a backup. -/
structure BackupConfig where
  Timestamp : String
  BackupDir : String
  DatabaseName : String
  LeafPartitionData : Bool
  Plugin : String
  SingleDataFile : Bool
  Compressed : Bool
  IncludeRelations : List String
  IncludeSchemas : List String
  ExcludeRelations : List String
  ExcludeSchemas : List String
  deriving DecidableEq, Repr

/-- Modelled from the spec: the backup history, a list of configurations. -/
structure History where
  BackupConfigs : List BackupConfig
  deriving Repr

/-- Modelled from the spec: one record of the restore plan. -/
structure RestorePlanEntry where
  Timestamp : String
  TableFQNs : List String
  deriving DecidableEq, Repr

end history

namespace backup

/-- Modelled from the spec: a table, identified by its fully-qualified name. -/
structure Table where
  Oid : Nat
  Schema : String
  Name : String
  deriving DecidableEq, Repr

/-- Modelled from the spec: the FQN of a table. -/
def Table.FQN (t : Table) : String :=
  utils.MakeFQN t.Schema t.Name

/-- The options that `matchesIncrementalFlags` reads through `MustGetFlag*`. -/
structure Flags where
  BACKUP_DIR : String
  LEAF_PARTITION_DATA : Bool
  SINGLE_DATA_FILE : Bool
  INCLUDE_SCHEMA : List String
  EXCLUDE_RELATION : List String
  EXCLUDE_SCHEMA : List String
  deriving Repr

/-! ## `backup/incremental.go` -/

/-- One iteration of the loop of `FilterTablesForIncremental`. -/
def filterStep (lastBackupTOC currentTOC : toc.TOC) (filteredTables : List Table)
    (table : Table) : List Table :=
  match currentTOC.IncrementalMetadata.AO.lookup table.FQN with
  | none => filteredTables ++ [table]
  | some currentAOEntry =>
    let previousAOEntry :=
      (lastBackupTOC.IncrementalMetadata.AO.lookup table.FQN).getD toc.AOEntry.zero
    if previousAOEntry.Modcount != currentAOEntry.Modcount
        || previousAOEntry.LastDDLTimestamp != currentAOEntry.LastDDLTimestamp then
      filteredTables ++ [table]
    else filteredTables

/-- `FilterTablesForIncremental` of `incremental.go`. -/
def FilterTablesForIncremental (lastBackupTOC currentTOC : toc.TOC)
    (tables : List Table) : List Table :=
  tables.foldl (filterStep lastBackupTOC currentTOC) []

/-- `matchesIncrementalFlags` of `incremental.go`; the flag values are passed in. -/
def matchesIncrementalFlags (flags : Flags)
    (backupConfig currentBackupConfig : history.BackupConfig) : Bool :=
  let pluginBinaryName := (pathSplit backupConfig.Plugin).2
  backupConfig.BackupDir == flags.BACKUP_DIR &&
  backupConfig.DatabaseName == currentBackupConfig.DatabaseName &&
  backupConfig.LeafPartitionData == flags.LEAF_PARTITION_DATA &&
  pluginBinaryName == currentBackupConfig.Plugin &&
  backupConfig.SingleDataFile == flags.SINGLE_DATA_FILE &&
  backupConfig.Compressed == currentBackupConfig.Compressed &&
  (utils.NewIncludeSet backupConfig.IncludeRelations).Equals
    (utils.NewIncludeSet currentBackupConfig.IncludeRelations) &&
  (utils.NewIncludeSet backupConfig.IncludeSchemas).Equals
    (utils.NewIncludeSet flags.INCLUDE_SCHEMA) &&
  (utils.NewIncludeSet backupConfig.ExcludeRelations).Equals
    (utils.NewIncludeSet flags.EXCLUDE_RELATION) &&
  (utils.NewIncludeSet backupConfig.ExcludeSchemas).Equals
    (utils.NewIncludeSet flags.EXCLUDE_SCHEMA)

/-- The loop of `GetLatestMatchingBackupConfig` over the remaining entries. -/
def latestMatchingLoop (flags : Flags) (currentBackupConfig : history.BackupConfig) :
    List history.BackupConfig → Option history.BackupConfig
  | [] => none
  | backupConfig :: rest =>
    if matchesIncrementalFlags flags backupConfig currentBackupConfig then some backupConfig
    else latestMatchingLoop flags currentBackupConfig rest

/-- `GetLatestMatchingBackupConfig` of `incremental.go`; `none` is the nil result. -/
def GetLatestMatchingBackupConfig (flags : Flags) (hist : history.History)
    (currentBackupConfig : history.BackupConfig) : Option history.BackupConfig :=
  latestMatchingLoop flags currentBackupConfig hist.BackupConfigs

/-- `GetLatestMatchingBackupTimestamp` of `incremental.go`. The environment is
passed in: `fileExistsAndIsReadable` is the answer of
`iohelper.FileExistsAndIsReadable` for the history file, `newHistory` the
result of `history.NewHistory` on it (`none` for an error), and
`currentBackupConfig` is `backupReport.BackupConfig`. The result `none` is the
abort of `gplog.FatalOnError`. -/
def GetLatestMatchingBackupTimestamp (flags : Flags) (fileExistsAndIsReadable : Bool)
    (newHistory : Option history.History) (currentBackupConfig : history.BackupConfig) :
    Option String :=
  let found : Option (Option history.BackupConfig) :=
    if fileExistsAndIsReadable then
      match newHistory with
      | none => none
      | some contents => some (GetLatestMatchingBackupConfig flags contents currentBackupConfig)
    else some none
  match found with
  | none => none
  | some none => none
  | some (some latestMatchingBackupHistoryEntry) =>
    let latestTimestamp := latestMatchingBackupHistoryEntry.Timestamp
    some latestTimestamp

/-- The Go idiom `m[k] = true` for every element, as a `map[string]bool`. -/
def fqnSet (tables : List Table) : List (String × Bool) :=
  tables.foldl (fun m table => (table.FQN, true) :: m) []

/-- Reading a `map[string]bool`: a missing key reads as `false`. -/
def mapGetBool (m : List (String × Bool)) (k : String) : Bool :=
  (m.lookup k).getD false

/-- The inner loop of `PopulateRestorePlan` over the FQNs of one entry. -/
def pruneFQNs (changedTableFQNs allTableFQNs : List (String × Bool))
    (fqns : List String) : List String :=
  fqns.foldl (fun tableFQNs tableFQN =>
    if !(mapGetBool changedTableFQNs tableFQN) && mapGetBool allTableFQNs tableFQN then
      tableFQNs ++ [tableFQN]
    else tableFQNs) []

/-- `PopulateRestorePlan` of `incremental.go`; `timestamp` is
`globalFPInfo.Timestamp`, the timestamp of the current backup. -/
def PopulateRestorePlan (timestamp : String) (changedTables : List Table)
    (restorePlan : List history.RestorePlanEntry) (allTables : List Table) :
    List history.RestorePlanEntry :=
  let currBackupRestorePlanEntry : history.RestorePlanEntry :=
    { Timestamp := timestamp,
      TableFQNs := changedTables.foldl (fun fqns t => fqns ++ [t.FQN]) [] }
  let changedTableFQNs := fqnSet changedTables
  let allTableFQNs := fqnSet allTables
  let restorePlan := restorePlan.map (fun restorePlanEntry =>
    { restorePlanEntry with
      TableFQNs := pruneFQNs changedTableFQNs allTableFQNs restorePlanEntry.TableFQNs })
  restorePlan ++ [currBackupRestorePlanEntry]

end backup

/-! ## `utils/toc.go` -/

namespace utils

structure MetadataEntry where
  Schema : String
  Name : String
  ObjectType : String
  ReferenceObject : String
  StartByte : Nat
  EndByte : Nat
  deriving DecidableEq, Repr

structure MasterDataEntry where
  Schema : String
  Name : String
  Oid : Nat
  AttributeString : String
  RowsCopied : Int
  deriving DecidableEq, Repr

structure SegmentDataEntry where
  StartByte : Nat
  EndByte : Nat
  deriving DecidableEq, Repr

structure StatementWithType where
  Schema : String
  Name : String
  ObjectType : String
  ReferenceObject : String
  Statement : String
  deriving DecidableEq, Repr

/-- The values of type `*[]MetadataEntry` that `metadataEntryMap` can hold:
the addresses of the four entry slices of the TOC itself. -/
inductive EntriesPtr where
  | GlobalEntries
  | PredataEntries
  | PostdataEntries
  | StatisticsEntries
  deriving DecidableEq, Repr

structure TOC where
  metadataEntryMap : List (String × EntriesPtr)
  GlobalEntries : List MetadataEntry
  PredataEntries : List MetadataEntry
  PostdataEntries : List MetadataEntry
  StatisticsEntries : List MetadataEntry
  DataEntries : List MasterDataEntry
  deriving DecidableEq, Repr

/-- The segment TOC. Its map is written to, and a write to a nil map panics
in Go, so the nil map (`none`) is kept apart from an allocated map. -/
structure SegmentTOC where
  LastByteRead : Nat
  DataEntries : Option (List (Nat × SegmentDataEntry))
  deriving DecidableEq, Repr

/-- The Go zero value `SegmentTOC{}`, as `NewSegmentTOC` creates it before
loading: the map is nil. -/
def SegmentTOC.zero : SegmentTOC :=
  { LastByteRead := 0, DataEntries := none }

/-- The map read `toc.DataEntries[oid]` with its presence flag; a nil map
reads as empty. -/
def SegmentTOC.entryOf (toc : SegmentTOC) (oid : Nat) : Option SegmentDataEntry :=
  (toc.DataEntries.getD []).lookup oid

/-- The Go zero value `TOC{}`: nil map, nil slices. -/
def TOC.zero : TOC :=
  { metadataEntryMap := [], GlobalEntries := [], PredataEntries := [], PostdataEntries := [],
    StatisticsEntries := [], DataEntries := [] }

/-- Reading through a pointer of `metadataEntryMap`: `*ptr`. -/
def TOC.deref (toc : TOC) : EntriesPtr → List MetadataEntry
  | .GlobalEntries => toc.GlobalEntries
  | .PredataEntries => toc.PredataEntries
  | .PostdataEntries => toc.PostdataEntries
  | .StatisticsEntries => toc.StatisticsEntries

/-- Writing through a pointer of `metadataEntryMap`: `*ptr = entries`. -/
def TOC.assign (toc : TOC) (ptr : EntriesPtr) (entries : List MetadataEntry) : TOC :=
  match ptr with
  | .GlobalEntries => { toc with GlobalEntries := entries }
  | .PredataEntries => { toc with PredataEntries := entries }
  | .PostdataEntries => { toc with PostdataEntries := entries }
  | .StatisticsEntries => { toc with StatisticsEntries := entries }

/-- `InitializeEntryMap` of `toc.go`. -/
def TOC.InitializeEntryMap (toc : TOC) : TOC :=
  { toc with metadataEntryMap :=
      [("global", .GlobalEntries), ("predata", .PredataEntries),
       ("postdata", .PostdataEntries), ("statistics", .StatisticsEntries)] }

/-- Modelled from the spec: the dump stream under construction (type
`FileWithByteCount`, not in the embedded sources): the bytes written so far
and the running byte counter, a `uint64`. -/
structure FileWithByteCount where
  written : List Char
  ByteCount : Nat
  deriving DecidableEq, Repr

/-- Modelled from the spec: the single stream writer appends the bytes of
`text` and advances the byte counter by their number. -/
def FileWithByteCount.MustPrint (file : FileWithByteCount) (text : String) :
    FileWithByteCount :=
  { written := file.written ++ text.data,
    ByteCount := (file.ByteCount + text.data.length) % 18446744073709551616 }

/-- `AddMetadataEntry` of `toc.go`; `none` is the nil-pointer panic of
dereferencing the map value of a section that the map does not hold. -/
def TOC.AddMetadataEntry (toc : TOC) (schema name objectType referenceObject : String)
    (start : Nat) (file : FileWithByteCount) (sectionName : String) : Option TOC :=
  match toc.metadataEntryMap.lookup sectionName with
  | none => none
  | some ptr =>
    some (toc.assign ptr
      (toc.deref ptr ++ [⟨schema, name, objectType, referenceObject, start, file.ByteCount⟩]))

/-- `AddGlobalEntry` of `toc.go`. -/
def TOC.AddGlobalEntry (toc : TOC) (schema name objectType : String) (start : Nat)
    (file : FileWithByteCount) : Option TOC :=
  toc.AddMetadataEntry schema name objectType "" start file "global"

/-- `AddPredataEntry` of `toc.go`. -/
def TOC.AddPredataEntry (toc : TOC) (schema name objectType referenceObject : String)
    (start : Nat) (file : FileWithByteCount) : Option TOC :=
  toc.AddMetadataEntry schema name objectType referenceObject start file "predata"

/-- `AddPostdataEntry` of `toc.go`. -/
def TOC.AddPostdataEntry (toc : TOC) (schema name objectType referenceObject : String)
    (start : Nat) (file : FileWithByteCount) : Option TOC :=
  toc.AddMetadataEntry schema name objectType referenceObject start file "postdata"

/-- `AddStatisticsEntry` of `toc.go`. -/
def TOC.AddStatisticsEntry (toc : TOC) (schema name objectType : String) (start : Nat)
    (file : FileWithByteCount) : Option TOC :=
  toc.AddMetadataEntry schema name objectType "" start file "statistics"

/-- The conversion `int64(x)` of a `uint64`. -/
def toInt64 (x : Nat) : Int :=
  if x % 18446744073709551616 < 9223372036854775808 then (x % 18446744073709551616 : Nat)
  else ((x % 18446744073709551616 : Nat) : Int) - 18446744073709551616

/-- Go standard library `ReadAt(contents, off)` of a random-access file
(`*os.File`) for a buffer of `n` bytes: an error (`none`) for a negative
offset and when fewer than `n` bytes remain at `off`, otherwise the `n` bytes
at `off`; a read of zero bytes at a non-negative offset succeeds. An
allocation of more bytes than the file holds is followed by such a failed
read, so that the failed allocation and the failed read are the same abort. -/
def ReadAt (metadataFile : List Char) (n : Nat) (off : Int) : Option (List Char) :=
  if off < 0 then none
  else if (metadataFile.drop off.toNat).length < n then none
  else some ((metadataFile.drop off.toNat).take n)

/-- The body shared by the two statement loops: allocate
`entry.EndByte-entry.StartByte` bytes (a `uint64` difference), read them at
`int64(entry.StartByte)`, abort on error, build the statement. -/
def readStatement (metadataFile : List Char) (entry : MetadataEntry) :
    Option StatementWithType :=
  let n := (entry.EndByte % 18446744073709551616 + 18446744073709551616
    - entry.StartByte % 18446744073709551616) % 18446744073709551616
  match ReadAt metadataFile n (toInt64 entry.StartByte) with
  | none => none
  | some contents =>
    some { Schema := entry.Schema, Name := entry.Name, ObjectType := entry.ObjectType,
           ReferenceObject := entry.ReferenceObject, Statement := String.mk contents }

/-- The loop of `GetSQLStatementForObjectTypes` over the remaining entries. -/
def statementsForObjectTypesLoop (metadataFile : List Char)
    (includeObjectSet excludeObjectSet schemaSet tableSet : FilterSet)
    (includeTables : List String) :
    List MetadataEntry → List StatementWithType → Option (List StatementWithType)
  | [], statements => some statements
  | entry :: rest, statements =>
    let shouldIncludeObject := includeObjectSet.MatchesFilter entry.ObjectType
      && excludeObjectSet.MatchesFilter entry.ObjectType
    let shouldIncludeSchema := schemaSet.MatchesFilter entry.Schema
    let tableFQN := MakeFQN entry.Schema entry.Name
    let shouldIncludeTable := includeTables.length == 0
      || (entry.ObjectType == "TABLE" && tableSet.MatchesFilter tableFQN)
      || tableSet.MatchesFilter entry.ReferenceObject
    if shouldIncludeObject && shouldIncludeSchema && shouldIncludeTable then
      match readStatement metadataFile entry with
      | none => none
      | some statement =>
        statementsForObjectTypesLoop metadataFile includeObjectSet excludeObjectSet schemaSet
          tableSet includeTables rest (statements ++ [statement])
    else
      statementsForObjectTypesLoop metadataFile includeObjectSet excludeObjectSet schemaSet
        tableSet includeTables rest statements

/-- `GetSQLStatementForObjectTypes` of `toc.go`; `none` is an abort (nil
pointer for an unknown section, allocation panic or `FatalOnError`). -/
def TOC.GetSQLStatementForObjectTypes (toc : TOC) (sectionName : String)
    (metadataFile : List Char)
    (includeObjectTypes excludeObjectTypes includeSchemas includeTables : List String) :
    Option (List StatementWithType) :=
  match toc.metadataEntryMap.lookup sectionName with
  | none => none
  | some ptr =>
    statementsForObjectTypesLoop metadataFile (NewIncludeSet includeObjectTypes)
      (NewExcludeSet excludeObjectTypes) (NewIncludeSet includeSchemas)
      (NewIncludeSet includeTables) includeTables (toc.deref ptr) []

/-- The loop of `GetAllSQLStatements` over the remaining entries. -/
def allStatementsLoop (metadataFile : List Char) :
    List MetadataEntry → List StatementWithType → Option (List StatementWithType)
  | [], statements => some statements
  | entry :: rest, statements =>
    match readStatement metadataFile entry with
    | none => none
    | some statement => allStatementsLoop metadataFile rest (statements ++ [statement])

/-- `GetAllSQLStatements` of `toc.go`; `none` is an abort. -/
def TOC.GetAllSQLStatements (toc : TOC) (sectionName : String) (metadataFile : List Char) :
    Option (List StatementWithType) :=
  match toc.metadataEntryMap.lookup sectionName with
  | none => none
  | some ptr => allStatementsLoop metadataFile (toc.deref ptr) []

/-- The loop `for _, x := range list { m[x] = true }` that fills a
`map[string]bool`. -/
def hashesOf (list : List String) : List (String × Bool) :=
  list.foldl (fun m x => (x, true) :: m) []

/-- `GetDataEntriesMatching` of `toc.go`; a map that is not built stays nil. -/
def TOC.GetDataEntriesMatching (toc : TOC) (includeSchemas includeTables : List String) :
    List MasterDataEntry :=
  let restoreAllSchemas := includeSchemas.length == 0
  let schemaHashes : List (String × Bool) :=
    if !restoreAllSchemas then hashesOf includeSchemas else []
  let restoreAllTables := includeTables.length == 0
  let tableHashes : List (String × Bool) :=
    if !restoreAllTables then hashesOf includeTables else []
  toc.DataEntries.foldl (fun matchingEntries entry =>
    let validSchema := (schemaHashes.lookup entry.Schema).isSome
    let validSchema := restoreAllSchemas || validSchema
    let tableFQN := MakeFQN entry.Schema entry.Name
    let validTable := (tableHashes.lookup tableFQN).isSome
    let validTable := restoreAllTables || validTable
    if validSchema && validTable then matchingEntries ++ [entry] else matchingEntries) []

/-! ### The regular expression of the database rename

`SubstituteRedirectDatabaseInStatements` compiles the pattern
`DATABASE <QuoteMeta(oldName)>(;| OWNER| SET| TO| FROM| IS| TEMPLATE)`.
`regexp.QuoteMeta` makes the old name a literal, so the pattern matches the
text `DATABASE `, the old name and one of the seven alternatives of its
capture group, and nothing else. The Go standard library functions are
modelled for this pattern. -/

/-- The alternatives of the capture group of the pattern, in its order. -/
def terminators : List (List Char) :=
  [";".data, " OWNER".data, " SET".data, " TO".data, " FROM".data, " IS".data,
   " TEMPLATE".data]

/-- The literal text at the head of the pattern. -/
def databaseKeyword : List Char :=
  "DATABASE ".data

/-- The rest of `text` after the literal `lit`, when `text` starts with it. -/
def dropLiteral : List Char → List Char → Option (List Char)
  | [], text => some text
  | _ :: _, [] => none
  | l :: ls, c :: cs => if l == c then dropLiteral ls cs else none

/-- A match of the pattern at the start of `text`: the text of the capture
group, the first alternative that follows `DATABASE <oldName>`. -/
def matchAtStart (oldName : List Char) (text : List Char) : Option (List Char) :=
  match dropLiteral (databaseKeyword ++ oldName) text with
  | none => none
  | some rest => terminators.find? (fun t => (dropLiteral t rest).isSome)

/-- The runes of a variable name of a replacement template: letters, digits
and the underscore. Outside ASCII the Unicode tables of Go decide; they are
not modelled and a rune outside ASCII counts as not part of a name. -/
def isNameRune (c : Char) : Bool :=
  c.isAlphanum || c == '_'

/-- The number denoted by a variable name, as `extract` of package `regexp`
parses it: `none` (Go: `-1`) for a name that is not purely numeric, that has
a leading zero, or that is too long. -/
def parseNum (name : List Char) : Option Nat :=
  let num := name.foldl (fun (acc : Option Nat) c =>
    match acc with
    | none => none
    | some n => if c.isDigit && n < 100000000 then some (n * 10 + (c.toNat - 48)) else none)
    (some 0)
  match name with
  | '0' :: _ :: _ => none
  | _ => num

/-- Go `extract` of package `regexp` on the template text after a `$`: the
number of the variable and how many runes the reference takes; `none` for a
malformed reference. -/
def extract (str : List Char) : Option (Option Nat × Nat) :=
  match str with
  | [] => none
  | '{' :: rest =>
    let name := rest.takeWhile isNameRune
    if name.length == 0 then none
    else
      match rest.drop name.length with
      | '}' :: _ => some (parseNum name, name.length + 2)
      | _ => none
  | _ =>
    let name := str.takeWhile isNameRune
    if name.length == 0 then none else some (parseNum name, name.length)

/-- The text that a variable of the template stands for: the whole match for
`$0`, the capture group for `$1`, nothing for any other number and for any
name, since the pattern has one group and no named group. -/
def submatch (whole group1 : List Char) : Option Nat → List Char
  | some 0 => whole
  | some 1 => group1
  | _ => []

/-- Go `expand` of package `regexp`: the replacement template with its `$`
references replaced; `skip` counts the runes of the template that a reference
already took. -/
def expandLoop (whole group1 : List Char) : Nat → List Char → List Char
  | _, [] => []
  | skip + 1, _ :: cs => expandLoop whole group1 skip cs
  | 0, c :: cs =>
    if c == '$' then
      match cs with
      | '$' :: _ => '$' :: expandLoop whole group1 1 cs
      | _ =>
        match extract cs with
        | none => '$' :: expandLoop whole group1 0 cs
        | some (num, taken) => submatch whole group1 num ++ expandLoop whole group1 taken cs
    else c :: expandLoop whole group1 0 cs

/-- Go `ReplaceAllString` for the pattern: the leftmost matches, none
overlapping another, are replaced by the expanded template; `skip` counts the
runes of the text that the last match already took. -/
def replaceAllLoop (oldName template : List Char) : Nat → List Char → List Char
  | _, [] => []
  | skip + 1, _ :: cs => replaceAllLoop oldName template skip cs
  | 0, c :: cs =>
    match matchAtStart oldName (c :: cs) with
    | some group1 =>
      let whole := databaseKeyword ++ oldName ++ group1
      expandLoop whole group1 0 template ++ replaceAllLoop oldName template (whole.length - 1) cs
    | none => c :: replaceAllLoop oldName template 0 cs

/-- `pattern.ReplaceAllString(src, repl)` for the pattern built from `oldName`. -/
def ReplaceAllString (oldName : String) (src repl : String) : String :=
  String.mk (replaceAllLoop oldName.data repl.data 0 src.data)

/-- The map literal `shouldReplace` of `SubstituteRedirectDatabaseInStatements`. -/
def shouldReplace : List (String × Bool) :=
  [("DATABASE GUC", true), ("DATABASE", true), ("DATABASE METADATA", true)]

/-- `SubstituteRedirectDatabaseInStatements` of `toc.go`. -/
def SubstituteRedirectDatabaseInStatements (statements : List StatementWithType)
    (oldName newName : String) : List StatementWithType :=
  let newDatabase := newName
  statements.map (fun statement =>
    if (shouldReplace.lookup statement.ObjectType).getD false then
      { statement with
        Statement := ReplaceAllString oldName statement.Statement
          ("DATABASE " ++ newDatabase ++ "$1") }
    else statement)

/-- `RemoveActiveRole` of `toc.go`. -/
def RemoveActiveRole (activeUser : String) (statements : List StatementWithType) :
    List StatementWithType :=
  statements.foldl (fun newStatements statement =>
    if statement.ObjectType == "ROLE" && statement.Name == activeUser then newStatements
    else newStatements ++ [statement]) []

/-- `AddMasterDataEntry` of `toc.go`. -/
def TOC.AddMasterDataEntry (toc : TOC) (schema name : String) (oid : Nat)
    (attributeString : String) (rowsCopied : Int) : TOC :=
  { toc with DataEntries := toc.DataEntries ++ [⟨schema, name, oid, attributeString, rowsCopied⟩] }

/-- `AddSegmentDataEntry` of `toc.go`: the map assignment
`toc.DataEntries[oid] = SegmentDataEntry{startByte, endByte}`, which replaces
the binding of `oid`; `none` is the panic of an assignment to a nil map. -/
def SegmentTOC.AddSegmentDataEntry (toc : SegmentTOC) (oid startByte endByte : Nat) :
    Option SegmentTOC :=
  match toc.DataEntries with
  | none => none
  | some entries =>
    some { toc with
      DataEntries :=
        some ((oid, ⟨startByte, endByte⟩) :: entries.filter (fun kv => kv.1 != oid)) }

/-! ## The writer discipline of the TOC index -/

/-- One statement handed to the writer: the bytes that precede it in the
stream without being indexed (`gap`), the identification recorded for it and
its text. -/
structure EmittedStatement where
  gap : String
  Schema : String
  Name : String
  ObjectType : String
  ReferenceObject : String
  Statement : String
  deriving DecidableEq, Repr

/-- The statement that reading an emitted statement back must give. -/
def EmittedStatement.toStatement (s : EmittedStatement) : StatementWithType :=
  { Schema := s.Schema, Name := s.Name, ObjectType := s.ObjectType,
    ReferenceObject := s.ReferenceObject, Statement := s.Statement }

/-- The writer emits one statement: it writes the gap, notes the offset,
writes the statement and then calls `AddMetadataEntry` with that start offset
and the stream, whose byte counter is read by the call. -/
def emitStatement (sectionName : String) (state : TOC × FileWithByteCount)
    (s : EmittedStatement) : Option (TOC × FileWithByteCount) :=
  let file := state.2.MustPrint s.gap
  let start := file.ByteCount
  let file := file.MustPrint s.Statement
  match state.1.AddMetadataEntry s.Schema s.Name s.ObjectType s.ReferenceObject start file
      sectionName with
  | none => none
  | some toc => some (toc, file)

/-- The writer emits the statements in order. -/
def emitAll (sectionName : String) :
    TOC × FileWithByteCount → List EmittedStatement → Option (TOC × FileWithByteCount)
  | state, [] => some state
  | state, s :: rest =>
    match emitStatement sectionName state s with
    | none => none
    | some state => emitAll sectionName state rest

end utils

/-! ## Sequences of calls that add entries -/

namespace utils

/-- One call of the functions of `toc.go` that add a metadata entry, with its
arguments. -/
inductive AddCall where
  | metadata (schema name objectType referenceObject : String) (start : Nat)
      (file : FileWithByteCount) (sectionName : String)
  | global (schema name objectType : String) (start : Nat) (file : FileWithByteCount)
  | predata (schema name objectType referenceObject : String) (start : Nat)
      (file : FileWithByteCount)
  | postdata (schema name objectType referenceObject : String) (start : Nat)
      (file : FileWithByteCount)
  | statistics (schema name objectType : String) (start : Nat) (file : FileWithByteCount)
  deriving DecidableEq, Repr

/-- The call made on a TOC. -/
def AddCall.run (toc : TOC) : AddCall → Option TOC
  | .metadata schema name objectType referenceObject start file sectionName =>
    toc.AddMetadataEntry schema name objectType referenceObject start file sectionName
  | .global schema name objectType start file =>
    toc.AddGlobalEntry schema name objectType start file
  | .predata schema name objectType referenceObject start file =>
    toc.AddPredataEntry schema name objectType referenceObject start file
  | .postdata schema name objectType referenceObject start file =>
    toc.AddPostdataEntry schema name objectType referenceObject start file
  | .statistics schema name objectType start file =>
    toc.AddStatisticsEntry schema name objectType start file

/-- The section that a call adds to. -/
def AddCall.sectionName : AddCall → String
  | .metadata _ _ _ _ _ _ sectionName => sectionName
  | .global _ _ _ _ _ => "global"
  | .predata _ _ _ _ _ _ => "predata"
  | .postdata _ _ _ _ _ _ => "postdata"
  | .statistics _ _ _ _ _ => "statistics"

/-- The start offset that a call passes. -/
def AddCall.start : AddCall → Nat
  | .metadata _ _ _ _ start _ _ => start
  | .global _ _ _ start _ => start
  | .predata _ _ _ _ start _ => start
  | .postdata _ _ _ _ start _ => start
  | .statistics _ _ _ start _ => start

/-- The byte counter of the stream that a call passes. -/
def AddCall.byteCount : AddCall → Nat
  | .metadata _ _ _ _ _ file _ => file.ByteCount
  | .global _ _ _ _ file => file.ByteCount
  | .predata _ _ _ _ _ file => file.ByteCount
  | .postdata _ _ _ _ _ file => file.ByteCount
  | .statistics _ _ _ _ file => file.ByteCount

/-- The calls made in order, each on the TOC left by the previous one. -/
def runCalls : TOC → List AddCall → Option TOC
  | toc, [] => some toc
  | toc, c :: cs =>
    match c.run toc with
    | none => none
    | some toc => runCalls toc cs

/-- The discipline of the writer along a sequence of calls: every call names
a section of the map, passes a start offset below the byte counter it passes,
and a start offset that is at least the `EndByte` of the entry last added to
its section, when there is one. -/
def disciplined : TOC → List AddCall → Bool
  | _, [] => true
  | toc, c :: cs =>
    match toc.metadataEntryMap.lookup c.sectionName with
    | none => false
    | some ptr =>
      decide (c.start < c.byteCount)
      && (match (toc.deref ptr).getLast? with
          | none => true
          | some last => decide (last.EndByte ≤ c.start))
      && (match c.run toc with
          | none => false
          | some toc => disciplined toc cs)

end utils

/-! ## The stream writer and the TOC together -/

namespace utils

/-- One step of the writer of a dump stream: it prints text to the stream, or
it calls `AddMetadataEntry` with the stream as it stands. -/
inductive WriterStep where
  | print (text : String)
  | add (schema name objectType referenceObject : String) (start : Nat) (sectionName : String)
  deriving DecidableEq, Repr

/-- The step made on a TOC and a stream. -/
def WriterStep.run (state : TOC × FileWithByteCount) :
    WriterStep → Option (TOC × FileWithByteCount)
  | .print text => some (state.1, state.2.MustPrint text)
  | .add schema name objectType referenceObject start sectionName =>
    match state.1.AddMetadataEntry schema name objectType referenceObject start state.2
        sectionName with
    | none => none
    | some toc => some (toc, state.2)

/-- The steps made in order. -/
def runSteps : TOC × FileWithByteCount → List WriterStep → Option (TOC × FileWithByteCount)
  | state, [] => some state
  | state, step :: rest =>
    match step.run state with
    | none => none
    | some state => runSteps state rest

/-- The writer discipline along a run: the byte counter of the stream never
decreases, and every call of `AddMetadataEntry` names a section of the map and
passes a start offset that is strictly below the byte counter at the time of
the call and at least the byte counter recorded by the previous call for the
same section (the `EndByte` of the last entry of the section), when there is
one. -/
def writerDiscipline : TOC × FileWithByteCount → List WriterStep → Bool
  | _, [] => true
  | state, .print text :: rest =>
    decide (state.2.ByteCount ≤ (state.2.MustPrint text).ByteCount)
    && writerDiscipline (state.1, state.2.MustPrint text) rest
  | state, .add schema name objectType referenceObject start sectionName :: rest =>
    match state.1.metadataEntryMap.lookup sectionName with
    | none => false
    | some ptr =>
      decide (start < state.2.ByteCount)
      && (match (state.1.deref ptr).getLast? with
          | none => true
          | some last => decide (last.EndByte ≤ start))
      && (match state.1.AddMetadataEntry schema name objectType referenceObject start state.2
            sectionName with
          | none => false
          | some toc => writerDiscipline (toc, state.2) rest)

end utils

/-! ## Successive updates of the restore plan -/

namespace backup

/-- The inputs of one run of `PopulateRestorePlan`: the timestamp of the
backup, its changed tables and the tables that exist at that time. -/
structure PlanUpdate where
  timestamp : String
  changedTables : List Table
  allTables : List Table
  deriving Repr

/-- The chain obtained from the empty chain by the given updates, in order,
each applied by `PopulateRestorePlan` to the chain left by the previous one. -/
def applyUpdates (updates : List PlanUpdate) : List history.RestorePlanEntry :=
  updates.foldl (fun restorePlan u =>
    PopulateRestorePlan u.timestamp u.changedTables restorePlan u.allTables) []

end backup

/-! ## Specification predicates and proof helpers -/

namespace backup

/-- The decision taken by one iteration of `FilterTablesForIncremental`,
read off `filterStep`: is `table` appended? -/
def keepsTable (lastBackupTOC currentTOC : toc.TOC) (table : Table) : Bool :=
  match currentTOC.IncrementalMetadata.AO.lookup table.FQN with
  | none => true
  | some currentAOEntry =>
    let previousAOEntry :=
      (lastBackupTOC.IncrementalMetadata.AO.lookup table.FQN).getD toc.AOEntry.zero
    previousAOEntry.Modcount != currentAOEntry.Modcount
      || previousAOEntry.LastDDLTimestamp != currentAOEntry.LastDDLTimestamp

/-- The selection criterion in the words of the specification: the current
TOC has no AO entry for the table, or the reference and the current AO
entries both exist and differ in `Modcount` or in `LastDDLTimestamp`. -/
def specChanged (referenceTOC currentTOC : toc.TOC) (t : Table) : Bool :=
  match currentTOC.IncrementalMetadata.AO.lookup t.FQN with
  | none => true
  | some cur =>
    match referenceTOC.IncrementalMetadata.AO.lookup t.FQN with
    | none => false
    | some ref =>
      ref.Modcount != cur.Modcount || ref.LastDDLTimestamp != cur.LastDDLTimestamp

/-- The pruning criterion of the restore plan in the words of the
specification: the FQN is not that of a changed table and is that of a table
that still exists. -/
def specSurvives (changedTables allTables : List Table) (fqn : String) : Bool :=
  decide (fqn ∉ changedTables.map Table.FQN) && decide (fqn ∈ allTables.map Table.FQN)

end backup

namespace utils

/-- The selection criterion of `GetSQLStatementForObjectTypes`, as the loop
computes it, read on the fields that a statement copies from its entry. -/
def selectsStatement (includeObjectSet excludeObjectSet schemaSet tableSet : FilterSet)
    (includeTables : List String) (s : StatementWithType) : Bool :=
  (includeObjectSet.MatchesFilter s.ObjectType && excludeObjectSet.MatchesFilter s.ObjectType)
  && schemaSet.MatchesFilter s.Schema
  && (includeTables.length == 0
      || (s.ObjectType == "TABLE" && tableSet.MatchesFilter (MakeFQN s.Schema s.Name))
      || tableSet.MatchesFilter s.ReferenceObject)

/-- The selection criterion of `GetSQLStatementForObjectTypes`, as the loop
computes it on an entry. -/
def selectsEntry (includeObjectSet excludeObjectSet schemaSet tableSet : FilterSet)
    (includeTables : List String) (entry : MetadataEntry) : Bool :=
  (includeObjectSet.MatchesFilter entry.ObjectType
    && excludeObjectSet.MatchesFilter entry.ObjectType)
  && schemaSet.MatchesFilter entry.Schema
  && (includeTables.length == 0
      || (entry.ObjectType == "TABLE"
          && tableSet.MatchesFilter (MakeFQN entry.Schema entry.Name))
      || tableSet.MatchesFilter entry.ReferenceObject)

/-- The text `DATABASE <oldName>` immediately followed by one of the
terminators of the pattern occurs in `text`. -/
def occursIn (oldName : String) (text : String) : Prop :=
  ∃ pre post term, term ∈ terminators
    ∧ text.data = pre ++ (databaseKeyword ++ oldName.data ++ term) ++ post

/-- The entry that a call appends. -/
def AddCall.entry : AddCall → MetadataEntry
  | .metadata schema name objectType referenceObject start file _ =>
    ⟨schema, name, objectType, referenceObject, start, file.ByteCount⟩
  | .global schema name objectType start file =>
    ⟨schema, name, objectType, "", start, file.ByteCount⟩
  | .predata schema name objectType referenceObject start file =>
    ⟨schema, name, objectType, referenceObject, start, file.ByteCount⟩
  | .postdata schema name objectType referenceObject start file =>
    ⟨schema, name, objectType, referenceObject, start, file.ByteCount⟩
  | .statistics schema name objectType start file =>
    ⟨schema, name, objectType, "", start, file.ByteCount⟩

/-- The entries of a section are non-empty ranges laid out one after the
other: every entry ends after it starts, and every entry ends at or before
the start of each entry that follows it. -/
def entriesOrdered (entries : List MetadataEntry) : Prop :=
  (∀ e ∈ entries, e.StartByte < e.EndByte)
  ∧ entries.Pairwise (fun a b => a.EndByte ≤ b.StartByte)

/-- The entries that the writer discipline records for the given statements
when the first gap starts at offset `off`. -/
def layout : Nat → List EmittedStatement → List MetadataEntry
  | _, [] => []
  | off, s :: rest =>
    { Schema := s.Schema, Name := s.Name, ObjectType := s.ObjectType,
      ReferenceObject := s.ReferenceObject,
      StartByte := off + s.gap.data.length,
      EndByte := off + s.gap.data.length + s.Statement.data.length }
      :: layout (off + s.gap.data.length + s.Statement.data.length) rest

/-- The bytes that the writer produces for the given statements. -/
def streamOf : List EmittedStatement → List Char
  | [] => []
  | s :: rest => s.gap.data ++ s.Statement.data ++ streamOf rest

end utils

/-! ## Sample data -/

namespace utils

/-- A dump file with three statements, each preceded by a short gap. -/
def sampleFile : List Char :=
  "--CREATE TABLE public.t1;--CREATE VIEW public.v1;--CREATE TABLE other.t2;".data

/-- A TOC whose predata section indexes the three statements of `sampleFile`. -/
def sampleTOC : TOC :=
  { TOC.zero.InitializeEntryMap with
    PredataEntries :=
      [⟨"public", "t1", "TABLE", "", 2, 25⟩, ⟨"public", "v1", "VIEW", "", 27, 49⟩,
       ⟨"other", "t2", "TABLE", "", 51, 73⟩] }

/-- A dump file with a view, an index and a table. -/
def sampleViewFile : List Char :=
  "--CREATE VIEW public.v1;--CREATE INDEX i1 ON public.t2;--CREATE TABLE public.t2;".data

/-- A TOC whose predata section indexes the three statements of
`sampleViewFile`: the view `public.v1`, the index `i1`, which refers to the
table `public.t2`, and that table. -/
def sampleViewTOC : TOC :=
  { TOC.zero.InitializeEntryMap with
    PredataEntries :=
      [⟨"public", "v1", "VIEW", "", 2, 24⟩, ⟨"public", "i1", "INDEX", "public.t2", 26, 55⟩,
       ⟨"public", "t2", "TABLE", "", 57, 80⟩] }

end utils

/-! ## Helper lemmas -/

theorem foldl_append_if {α : Type} (p : α → Bool) (l : List α) (init : List α) :
    l.foldl (fun acc x => if p x then acc ++ [x] else acc) init = init ++ l.filter p := by
  induction l generalizing init with
  | nil => simp
  | cons x xs ih =>
    simp only [List.foldl_cons, ih, List.filter_cons]
    by_cases hx : p x = true <;> simp [hx]

theorem foldl_append_map {α β : Type} (f : α → β) (l : List α) (init : List β) :
    l.foldl (fun acc x => acc ++ [f x]) init = init ++ l.map f := by
  induction l generalizing init with
  | nil => simp
  | cons x xs ih => simp [List.foldl_cons, ih]

namespace backup

theorem filterStep_eq (ref cur : toc.TOC) (acc : List Table) (t : Table) :
    filterStep ref cur acc t = if keepsTable ref cur t then acc ++ [t] else acc := by
  unfold filterStep keepsTable
  cases h : cur.IncrementalMetadata.AO.lookup t.FQN <;> simp

theorem filterTables_eq_filter (ref cur : toc.TOC) (tables : List Table) :
    FilterTablesForIncremental ref cur tables = tables.filter (keepsTable ref cur) := by
  unfold FilterTablesForIncremental
  have h : filterStep ref cur = fun acc t => if keepsTable ref cur t then acc ++ [t] else acc := by
    funext acc t
    exact filterStep_eq ref cur acc t
  rw [h, foldl_append_if]
  simp

theorem mapGetBool_fqnSet_aux (tables : List Table) (m : List (String × Bool)) (k : String) :
    mapGetBool (tables.foldl (fun m table => (table.FQN, true) :: m) m) k
      = (decide (k ∈ tables.map Table.FQN) || mapGetBool m k) := by
  induction tables generalizing m with
  | nil => simp
  | cons t ts ih =>
    simp only [List.foldl_cons, ih, List.map_cons, List.mem_cons]
    by_cases hk : k = t.FQN
    · subst hk
      simp [mapGetBool, List.lookup]
    · have hb : (k == t.FQN) = false := by simpa using hk
      simp [mapGetBool, List.lookup, hb, hk]

theorem mapGetBool_fqnSet (tables : List Table) (k : String) :
    mapGetBool (fqnSet tables) k = decide (k ∈ tables.map Table.FQN) := by
  unfold fqnSet
  rw [mapGetBool_fqnSet_aux]
  simp [mapGetBool, List.lookup]

theorem pruneFQNs_eq_filter (changed all : List Table) (fqns : List String) :
    pruneFQNs (fqnSet changed) (fqnSet all) fqns = fqns.filter (specSurvives changed all) := by
  unfold pruneFQNs
  have h : (fun (tableFQNs : List String) (tableFQN : String) =>
      if (!(mapGetBool (fqnSet changed) tableFQN) && mapGetBool (fqnSet all) tableFQN) = true then
        tableFQNs ++ [tableFQN] else tableFQNs)
      = fun acc x => if specSurvives changed all x then acc ++ [x] else acc := by
    funext acc x
    simp [mapGetBool_fqnSet, specSurvives]
  rw [h, foldl_append_if]
  simp

theorem populate_eq (ts : String) (changed : List Table)
    (plan : List history.RestorePlanEntry) (all : List Table) :
    PopulateRestorePlan ts changed plan all
      = plan.map (fun e => { e with TableFQNs := e.TableFQNs.filter (specSurvives changed all) })
        ++ [{ Timestamp := ts, TableFQNs := changed.map Table.FQN }] := by
  unfold PopulateRestorePlan
  simp [pruneFQNs_eq_filter, foldl_append_map]

end backup

/-! ## Incremental differ -/

namespace backup

/-- C1: when every candidate with an AO entry in the current TOC also has one
in the reference TOC, `FilterTablesForIncremental` returns exactly the
sub-list of `tables` (order and duplicates kept) of the tables that have no
current AO entry or whose reference and current entries differ in `Modcount`
or in `LastDDLTimestamp`; a table whose entry is the same in both snapshots is
never returned and a candidate without a current entry always is. -/
theorem filterTablesForIncremental_spec (referenceTOC currentTOC : toc.TOC)
    (tables : List Table)
    (href : ∀ t ∈ tables,
      (currentTOC.IncrementalMetadata.AO.lookup t.FQN).isSome = true →
      (referenceTOC.IncrementalMetadata.AO.lookup t.FQN).isSome = true) :
    FilterTablesForIncremental referenceTOC currentTOC tables
        = tables.filter (specChanged referenceTOC currentTOC)
    ∧ (∀ t e, referenceTOC.IncrementalMetadata.AO.lookup t.FQN = some e →
        currentTOC.IncrementalMetadata.AO.lookup t.FQN = some e →
        t ∉ FilterTablesForIncremental referenceTOC currentTOC tables)
    ∧ (∀ t ∈ tables, currentTOC.IncrementalMetadata.AO.lookup t.FQN = none →
        t ∈ FilterTablesForIncremental referenceTOC currentTOC tables) := by
  rw [filterTables_eq_filter]
  refine ⟨?_, ?_, ?_⟩
  · apply List.filter_congr
    intro t ht
    unfold keepsTable specChanged
    cases hc : currentTOC.IncrementalMetadata.AO.lookup t.FQN with
    | none => rfl
    | some cur =>
      obtain ⟨ref, hr⟩ := Option.isSome_iff_exists.mp (href t ht (by simp [hc]))
      simp [hr]
  · intro t e hr hc hmem
    have hk := (List.mem_filter.mp hmem).2
    simp [keepsTable, hr, hc] at hk
  · intro t ht hc
    exact List.mem_filter.mpr ⟨ht, by simp [keepsTable, hc]⟩

/-- Witness for C1: the example of the specification, `t1` unchanged and `t2`
not AO-tracked. -/
theorem filterTablesForIncremental_spec_witness :
    FilterTablesForIncremental ⟨⟨[("public.t1", ⟨5, 100⟩)]⟩⟩ ⟨⟨[("public.t1", ⟨5, 100⟩)]⟩⟩
        [⟨1, "public", "t1"⟩, ⟨2, "public", "t2"⟩]
      = [⟨2, "public", "t2"⟩] := by
  have h := (filterTablesForIncremental_spec
    ⟨⟨[("public.t1", ⟨5, 100⟩)]⟩⟩ ⟨⟨[("public.t1", ⟨5, 100⟩)]⟩⟩
    [⟨1, "public", "t1"⟩, ⟨2, "public", "t2"⟩] (by decide)).1
  rw [h]
  decide

/-- C9, counterexample: a candidate with a current AO entry `{0, 0}` and no
reference entry is not returned. -/
theorem missing_reference_zero_entry_dropped :
    (⟨⟨[("public.t1", ⟨0, 0⟩)]⟩⟩ : toc.TOC).IncrementalMetadata.AO.lookup
        (Table.FQN ⟨1, "public", "t1"⟩) = some ⟨0, 0⟩
    ∧ (⟨⟨[]⟩⟩ : toc.TOC).IncrementalMetadata.AO.lookup (Table.FQN ⟨1, "public", "t1"⟩) = none
    ∧ (⟨1, "public", "t1"⟩ : Table) ∉
        FilterTablesForIncremental ⟨⟨[]⟩⟩ ⟨⟨[("public.t1", ⟨0, 0⟩)]⟩⟩ [⟨1, "public", "t1"⟩] := by
  decide

/-- C9, amended: a candidate with a current AO entry and no reference entry is
compared with the zero entry: it is returned exactly when its current
`Modcount` or its current `LastDDLTimestamp` is not zero. -/
theorem missing_reference_compared_with_zero (referenceTOC currentTOC : toc.TOC)
    (tables : List Table) (t : Table) (cur : toc.AOEntry)
    (ht : t ∈ tables)
    (hcur : currentTOC.IncrementalMetadata.AO.lookup t.FQN = some cur)
    (href : referenceTOC.IncrementalMetadata.AO.lookup t.FQN = none) :
    t ∈ FilterTablesForIncremental referenceTOC currentTOC tables
      ↔ (cur.Modcount ≠ 0 ∨ cur.LastDDLTimestamp ≠ 0) := by
  rw [filterTables_eq_filter, List.mem_filter]
  have hk : keepsTable referenceTOC currentTOC t
      = (decide (cur.Modcount ≠ 0) || decide (cur.LastDDLTimestamp ≠ 0)) := by
    unfold keepsTable
    rw [hcur, href]
    simp only [Option.getD_none, toc.AOEntry.zero]
    by_cases h1 : cur.Modcount = 0 <;> by_cases h2 : cur.LastDDLTimestamp = 0 <;>
      simp [h1, h2, bne, Ne.symm]
  rw [hk]
  simp [ht]

/-- Witness for the amended C9: a new AO table with `Modcount = 3`. -/
theorem missing_reference_compared_with_zero_witness :
    (⟨1, "public", "t1"⟩ : Table) ∈
        FilterTablesForIncremental ⟨⟨[]⟩⟩ ⟨⟨[("public.t1", ⟨3, 0⟩)]⟩⟩ [⟨1, "public", "t1"⟩] :=
  (missing_reference_compared_with_zero ⟨⟨[]⟩⟩ ⟨⟨[("public.t1", ⟨3, 0⟩)]⟩⟩
    [⟨1, "public", "t1"⟩] ⟨1, "public", "t1"⟩ ⟨3, 0⟩ (by decide) (by decide) (by decide)).mpr
    (Or.inl (by decide))

/-! ## Restore plan manager -/

/-- C2: `PopulateRestorePlan` returns a chain one entry longer; entry `i` keeps
the timestamp of `restorePlan[i]` and keeps, in order, those of its FQNs that
are not the FQN of a changed table and are the FQN of a table of `allTables`;
the last entry carries the current timestamp and the FQNs of `changedTables`
in input order; the result for an entry is the same in whatever chain and at
whatever position the entry stands. -/
theorem populateRestorePlan_spec (timestamp : String) (changedTables : List Table)
    (restorePlan : List history.RestorePlanEntry) (allTables : List Table) :
    (PopulateRestorePlan timestamp changedTables restorePlan allTables).length
        = restorePlan.length + 1
    ∧ (∀ (i : Nat) (e : history.RestorePlanEntry), restorePlan[i]? = some e →
        (PopulateRestorePlan timestamp changedTables restorePlan allTables)[i]?
          = some (history.RestorePlanEntry.mk e.Timestamp
              (e.TableFQNs.filter (fun fqn =>
                decide (fqn ∉ changedTables.map Table.FQN ∧ fqn ∈ allTables.map Table.FQN)))))
    ∧ (PopulateRestorePlan timestamp changedTables restorePlan allTables)[restorePlan.length]?
        = some (history.RestorePlanEntry.mk timestamp (changedTables.map Table.FQN))
    ∧ (∀ (otherPlan : List history.RestorePlanEntry) (otherTimestamp : String)
        (i j : Nat) (e : history.RestorePlanEntry),
        restorePlan[i]? = some e → otherPlan[j]? = some e →
        (PopulateRestorePlan timestamp changedTables restorePlan allTables)[i]?
          = (PopulateRestorePlan otherTimestamp changedTables otherPlan allTables)[j]?) := by
  have key : ∀ (ts : String) (plan : List history.RestorePlanEntry) (i : Nat)
      (e : history.RestorePlanEntry), plan[i]? = some e →
      (PopulateRestorePlan ts changedTables plan allTables)[i]?
        = some (history.RestorePlanEntry.mk e.Timestamp
            (e.TableFQNs.filter (specSurvives changedTables allTables))) := by
    intro ts plan i e he
    have hi : i < plan.length := by
      rcases Nat.lt_or_ge i plan.length with h | h
      · exact h
      · rw [List.getElem?_eq_none h] at he
        cases he
    rw [populate_eq, List.getElem?_append_left (by simpa using hi), List.getElem?_map, he]
    rfl
  have hfun : (fun fqn => decide (fqn ∉ changedTables.map Table.FQN
      ∧ fqn ∈ allTables.map Table.FQN)) = specSurvives changedTables allTables := by
    funext fqn
    simp [specSurvives]
  refine ⟨?_, ?_, ?_, ?_⟩
  · simp [populate_eq]
  · intro i e he
    rw [hfun]
    exact key timestamp restorePlan i e he
  · rw [populate_eq]
    simp
  · intro otherPlan otherTimestamp i j e hi hj
    rw [key timestamp restorePlan i e hi, key otherTimestamp otherPlan j e hj]

/-! ## Backup history matcher -/

theorem latestMatchingLoop_none (flags : Flags) (cur : history.BackupConfig)
    (l : List history.BackupConfig) :
    latestMatchingLoop flags cur l = none
      ↔ ∀ c ∈ l, matchesIncrementalFlags flags c cur = false := by
  induction l with
  | nil => simp [latestMatchingLoop]
  | cons c cs ih =>
    unfold latestMatchingLoop
    by_cases hc : matchesIncrementalFlags flags c cur = true
    · simp [hc]
    · simp [hc, ih]

theorem latestMatchingLoop_some (flags : Flags) (cur : history.BackupConfig)
    (l : List history.BackupConfig) (r : history.BackupConfig)
    (h : latestMatchingLoop flags cur l = some r) :
    ∃ pre post, l = pre ++ r :: post
      ∧ (∀ c ∈ pre, matchesIncrementalFlags flags c cur = false)
      ∧ matchesIncrementalFlags flags r cur = true := by
  induction l with
  | nil => simp [latestMatchingLoop] at h
  | cons c cs ih =>
    unfold latestMatchingLoop at h
    by_cases hc : matchesIncrementalFlags flags c cur = true
    · simp [hc] at h
      subst h
      exact ⟨[], cs, rfl, by simp, hc⟩
    · simp [hc] at h
      obtain ⟨pre, post, hl, hpre, hr⟩ := ih h
      refine ⟨c :: pre, post, by simp [hl], ?_, hr⟩
      intro d hd
      rcases List.mem_cons.mp hd with rfl | hd
      · simpa using hc
      · exact hpre d hd

/-- C5: `GetLatestMatchingBackupConfig` returns nil exactly when no entry of
the history matches the current run; a returned entry is an entry of the
history that matches, and every entry before it does not match. -/
theorem getLatestMatchingBackupConfig_first_match (flags : Flags) (hist : history.History)
    (currentBackupConfig : history.BackupConfig) :
    (GetLatestMatchingBackupConfig flags hist currentBackupConfig = none
      ↔ ∀ c ∈ hist.BackupConfigs, matchesIncrementalFlags flags c currentBackupConfig = false)
    ∧ (∀ r, GetLatestMatchingBackupConfig flags hist currentBackupConfig = some r →
        ∃ pre post, hist.BackupConfigs = pre ++ r :: post
          ∧ (∀ c ∈ pre, matchesIncrementalFlags flags c currentBackupConfig = false)
          ∧ matchesIncrementalFlags flags r currentBackupConfig = true) :=
  ⟨latestMatchingLoop_none flags currentBackupConfig hist.BackupConfigs,
   fun r h => latestMatchingLoop_some flags currentBackupConfig hist.BackupConfigs r h⟩

end backup

namespace utils

theorem includeSet_equals_iff (a b : List String) :
    (NewIncludeSet a).Equals (NewIncludeSet b) = true ↔ ∀ x, x ∈ a ↔ x ∈ b := by
  simp only [FilterSet.Equals, NewIncludeSet, Bool.and_eq_true, List.all_eq_true,
    List.contains_iff_exists_mem_beq, beq_iff_eq, exists_eq_right']
  constructor
  · rintro ⟨h1, h2⟩ x
    exact ⟨h1 x, h2 x⟩
  · intro h
    exact ⟨fun x hx => (h x).mp hx, fun x hx => (h x).mpr hx⟩

end utils

namespace backup

theorem matchesIncrementalFlags_iff (flags : Flags) (h c : history.BackupConfig) :
    matchesIncrementalFlags flags h c = true ↔
      (h.BackupDir = flags.BACKUP_DIR ∧ h.DatabaseName = c.DatabaseName
        ∧ h.LeafPartitionData = flags.LEAF_PARTITION_DATA
        ∧ (pathSplit h.Plugin).2 = c.Plugin
        ∧ h.SingleDataFile = flags.SINGLE_DATA_FILE ∧ h.Compressed = c.Compressed
        ∧ (∀ x, x ∈ h.IncludeRelations ↔ x ∈ c.IncludeRelations)
        ∧ (∀ x, x ∈ h.IncludeSchemas ↔ x ∈ flags.INCLUDE_SCHEMA)
        ∧ (∀ x, x ∈ h.ExcludeRelations ↔ x ∈ flags.EXCLUDE_RELATION)
        ∧ (∀ x, x ∈ h.ExcludeSchemas ↔ x ∈ flags.EXCLUDE_SCHEMA)) := by
  unfold matchesIncrementalFlags
  simp only [Bool.and_eq_true, beq_iff_eq, utils.includeSet_equals_iff]
  tauto

/-- C6, counterexample: two configurations that agree on every compared field
and whose plugin values have the same final path component do not match when
the current plugin value has a directory part. -/
theorem plugin_directory_on_current_side_breaks_match :
    (pathSplit "/usr/local/bin/gpbackup_plugin").2 = (pathSplit "/opt/bin/gpbackup_plugin").2
    ∧ matchesIncrementalFlags ⟨"/backups", false, false, [], [], []⟩
        ⟨"20180101000000", "/backups", "testdb", false, "/usr/local/bin/gpbackup_plugin",
          false, true, [], [], [], []⟩
        ⟨"20180102000000", "/backups", "testdb", false, "/opt/bin/gpbackup_plugin",
          false, true, [], [], [], []⟩ = false := by
  decide

/-- C6, amended: for a history entry and a current configuration that agree on
all other compared fields, the entry matches exactly when the final path
component of the history entry's plugin value equals the whole plugin value of
the current configuration; the directory part is dropped on the history side
only. -/
theorem plugin_compared_by_history_basename (flags : Flags) (h c : history.BackupConfig)
    (hdir : h.BackupDir = flags.BACKUP_DIR) (hdb : h.DatabaseName = c.DatabaseName)
    (hleaf : h.LeafPartitionData = flags.LEAF_PARTITION_DATA)
    (hsingle : h.SingleDataFile = flags.SINGLE_DATA_FILE)
    (hcomp : h.Compressed = c.Compressed)
    (hir : ∀ x, x ∈ h.IncludeRelations ↔ x ∈ c.IncludeRelations)
    (his : ∀ x, x ∈ h.IncludeSchemas ↔ x ∈ flags.INCLUDE_SCHEMA)
    (her : ∀ x, x ∈ h.ExcludeRelations ↔ x ∈ flags.EXCLUDE_RELATION)
    (hes : ∀ x, x ∈ h.ExcludeSchemas ↔ x ∈ flags.EXCLUDE_SCHEMA) :
    matchesIncrementalFlags flags h c = true ↔ (pathSplit h.Plugin).2 = c.Plugin := by
  rw [matchesIncrementalFlags_iff]
  constructor
  · intro hm
    exact hm.2.2.2.1
  · intro hp
    exact ⟨hdir, hdb, hleaf, hp, hsingle, hcomp, hir, his, her, hes⟩

/-- Witness for the amended C6: the example of the specification, history
plugin `/usr/local/bin/gpbackup_plugin` against current plugin
`gpbackup_plugin`. -/
theorem plugin_compared_by_history_basename_witness :
    matchesIncrementalFlags ⟨"/backups", false, false, ["s1"], [], []⟩
        ⟨"20180101000000", "/backups", "testdb", false, "/usr/local/bin/gpbackup_plugin",
          false, true, ["public.a", "public.b"], ["s1"], [], []⟩
        ⟨"20180102000000", "/backups", "testdb", false, "gpbackup_plugin",
          false, true, ["public.a", "public.b"], [], [], []⟩ = true :=
  (plugin_compared_by_history_basename ⟨"/backups", false, false, ["s1"], [], []⟩
    ⟨"20180101000000", "/backups", "testdb", false, "/usr/local/bin/gpbackup_plugin",
      false, true, ["public.a", "public.b"], ["s1"], [], []⟩
    ⟨"20180102000000", "/backups", "testdb", false, "gpbackup_plugin",
      false, true, ["public.a", "public.b"], [], [], []⟩
    rfl rfl rfl rfl rfl (fun _ => Iff.rfl) (fun _ => Iff.rfl) (fun _ => Iff.rfl)
    (fun _ => Iff.rfl)).mpr (by decide)

/-- C10: the four relation and schema lists are compared as unordered sets:
replacing any of them, on the history side or on the current side, by a list
with the same elements leaves the result of `matchesIncrementalFlags`
unchanged, and a history entry one of whose four lists has a different set of
elements from its current counterpart does not match. -/
theorem matchesIncrementalFlags_lists_as_sets (flags : Flags) (h c : history.BackupConfig)
    (includeRelations includeSchemas excludeRelations excludeSchemas : List String)
    (curIncludeRelations curIncludeSchemas curExcludeRelations curExcludeSchemas : List String) :
    ((∀ x, x ∈ includeRelations ↔ x ∈ h.IncludeRelations) →
      (∀ x, x ∈ includeSchemas ↔ x ∈ h.IncludeSchemas) →
      (∀ x, x ∈ excludeRelations ↔ x ∈ h.ExcludeRelations) →
      (∀ x, x ∈ excludeSchemas ↔ x ∈ h.ExcludeSchemas) →
      (∀ x, x ∈ curIncludeRelations ↔ x ∈ c.IncludeRelations) →
      (∀ x, x ∈ curIncludeSchemas ↔ x ∈ flags.INCLUDE_SCHEMA) →
      (∀ x, x ∈ curExcludeRelations ↔ x ∈ flags.EXCLUDE_RELATION) →
      (∀ x, x ∈ curExcludeSchemas ↔ x ∈ flags.EXCLUDE_SCHEMA) →
      matchesIncrementalFlags
          { flags with INCLUDE_SCHEMA := curIncludeSchemas,
                       EXCLUDE_RELATION := curExcludeRelations,
                       EXCLUDE_SCHEMA := curExcludeSchemas }
          { h with IncludeRelations := includeRelations, IncludeSchemas := includeSchemas,
                   ExcludeRelations := excludeRelations, ExcludeSchemas := excludeSchemas }
          { c with IncludeRelations := curIncludeRelations }
        = matchesIncrementalFlags flags h c)
    ∧ ((¬ (∀ x, x ∈ h.IncludeRelations ↔ x ∈ c.IncludeRelations)
        ∨ ¬ (∀ x, x ∈ h.IncludeSchemas ↔ x ∈ flags.INCLUDE_SCHEMA)
        ∨ ¬ (∀ x, x ∈ h.ExcludeRelations ↔ x ∈ flags.EXCLUDE_RELATION)
        ∨ ¬ (∀ x, x ∈ h.ExcludeSchemas ↔ x ∈ flags.EXCLUDE_SCHEMA)) →
      matchesIncrementalFlags flags h c = false) := by
  constructor
  · intro h1 h2 h3 h4 h5 h6 h7 h8
    rw [Bool.eq_iff_iff, matchesIncrementalFlags_iff, matchesIncrementalFlags_iff]
    simp only [h1, h2, h3, h4, h5, h6, h7, h8]
  · intro hne
    rw [← Bool.not_eq_true, matchesIncrementalFlags_iff]
    tauto

/-- Witness for C10: a permuted list with a repetition on the history side
still matches, and a list with another element does not. -/
theorem matchesIncrementalFlags_lists_as_sets_witness :
    matchesIncrementalFlags ⟨"/backups", false, false, [], [], []⟩
        ⟨"20180101000000", "/backups", "testdb", false, "", false, true,
          ["public.b", "public.a", "public.b"], [], [], []⟩
        ⟨"20180102000000", "/backups", "testdb", false, "", false, true,
          ["public.a", "public.b"], [], [], []⟩
      = matchesIncrementalFlags ⟨"/backups", false, false, [], [], []⟩
        ⟨"20180101000000", "/backups", "testdb", false, "", false, true,
          ["public.a", "public.b"], [], [], []⟩
        ⟨"20180102000000", "/backups", "testdb", false, "", false, true,
          ["public.a", "public.b"], [], [], []⟩
    ∧ matchesIncrementalFlags ⟨"/backups", false, false, [], [], []⟩
        ⟨"20180101000000", "/backups", "testdb", false, "", false, true,
          ["public.a", "public.c"], [], [], []⟩
        ⟨"20180102000000", "/backups", "testdb", false, "", false, true,
          ["public.a", "public.b"], [], [], []⟩ = false :=
  ⟨(matchesIncrementalFlags_lists_as_sets ⟨"/backups", false, false, [], [], []⟩
      ⟨"20180101000000", "/backups", "testdb", false, "", false, true,
        ["public.a", "public.b"], [], [], []⟩
      ⟨"20180102000000", "/backups", "testdb", false, "", false, true,
        ["public.a", "public.b"], [], [], []⟩
      ["public.b", "public.a", "public.b"] [] [] [] ["public.a", "public.b"] [] [] []).1
      (by intro x; simp only [List.mem_cons, List.mem_singleton, List.not_mem_nil]; tauto)
      (fun _ => Iff.rfl) (fun _ => Iff.rfl) (fun _ => Iff.rfl)
      (fun _ => Iff.rfl) (fun _ => Iff.rfl) (fun _ => Iff.rfl) (fun _ => Iff.rfl),
   (matchesIncrementalFlags_lists_as_sets ⟨"/backups", false, false, [], [], []⟩
      ⟨"20180101000000", "/backups", "testdb", false, "", false, true,
        ["public.a", "public.c"], [], [], []⟩
      ⟨"20180102000000", "/backups", "testdb", false, "", false, true,
        ["public.a", "public.b"], [], [], []⟩
      [] [] [] [] [] [] [] []).2
      (Or.inl (fun hx => absurd ((hx "public.c").mp (by simp)) (by decide)))⟩

end backup

namespace backup

theorem applyUpdates_snoc (us : List PlanUpdate) (u : PlanUpdate) :
    applyUpdates (us ++ [u])
      = (applyUpdates us).map (fun e =>
          { e with TableFQNs := e.TableFQNs.filter (specSurvives u.changedTables u.allTables) })
        ++ [{ Timestamp := u.timestamp, TableFQNs := u.changedTables.map Table.FQN }] := by
  unfold applyUpdates
  rw [List.foldl_append]
  simp only [List.foldl_cons, List.foldl_nil]
  exact populate_eq _ _ _ _

theorem applyUpdates_length (us : List PlanUpdate) : (applyUpdates us).length = us.length := by
  induction us using List.reverseRecOn with
  | nil => rfl
  | append_singleton us u ih => simp [applyUpdates_snoc, ih]

/-- Reading the chain after one more update: an old position holds the pruned
old entry, the last position holds the new entry. -/
theorem applyUpdates_snoc_get (us : List PlanUpdate) (u : PlanUpdate) (k : Nat)
    (e : history.RestorePlanEntry) (h : (applyUpdates (us ++ [u]))[k]? = some e) :
    (k < us.length ∧ ∃ e0, (applyUpdates us)[k]? = some e0 ∧ e.Timestamp = e0.Timestamp
        ∧ e.TableFQNs = e0.TableFQNs.filter (specSurvives u.changedTables u.allTables))
    ∨ (k = us.length ∧ e = ⟨u.timestamp, u.changedTables.map Table.FQN⟩) := by
  rw [applyUpdates_snoc] at h
  rcases Nat.lt_or_ge k us.length with hk | hk
  · left
    rw [List.getElem?_append_left (by simpa [applyUpdates_length] using hk),
      List.getElem?_map] at h
    cases h0 : (applyUpdates us)[k]? with
    | none => simp [h0] at h
    | some e0 =>
      simp only [h0, Option.map_some', Option.some.injEq] at h
      subst h
      exact ⟨hk, e0, rfl, rfl, rfl⟩
  · right
    rw [List.getElem?_append_right (by simpa [applyUpdates_length] using hk)] at h
    simp only [List.length_map, applyUpdates_length] at h
    rcases Nat.eq_or_lt_of_le hk with heq | hlt
    · subst heq
      simp at h
      exact ⟨rfl, h.symm⟩
    · have : k - us.length ≥ 1 := by omega
      rw [List.getElem?_eq_none (by simpa using this)] at h
      cases h

theorem applyUpdates_mem_changed (us : List PlanUpdate) :
    ∀ (k : Nat) (e : history.RestorePlanEntry) (u : PlanUpdate) (fqn : String),
      (applyUpdates us)[k]? = some e → us[k]? = some u → fqn ∈ e.TableFQNs →
      e.Timestamp = u.timestamp ∧ fqn ∈ u.changedTables.map Table.FQN
        ∧ ∀ (j : Nat) (uj : PlanUpdate), k < j → us[j]? = some uj →
            fqn ∉ uj.changedTables.map Table.FQN := by
  induction us using List.reverseRecOn with
  | nil => intro k e u fqn h; simp [applyUpdates] at h
  | append_singleton us v ih =>
    intro k e u fqn he hu hf
    rcases applyUpdates_snoc_get us v k e he with ⟨hk, e0, he0, hts, hfq⟩ | ⟨hk, rfl⟩
    · rw [List.getElem?_append_left hk] at hu
      rw [hfq, List.mem_filter] at hf
      obtain ⟨h1, h2, h3⟩ := ih k e0 u fqn he0 hu hf.1
      refine ⟨hts.trans h1, h2, ?_⟩
      intro j uj hkj huj
      rcases Nat.lt_or_ge j us.length with hj | hj
      · rw [List.getElem?_append_left hj] at huj
        exact h3 j uj hkj huj
      · rw [List.getElem?_append_right hj] at huj
        have hj0 : j - us.length = 0 := by
          by_contra hne
          rw [List.getElem?_eq_none (by simp; omega)] at huj
          cases huj
        rw [hj0] at huj
        simp at huj
        subst huj
        have hs := hf.2
        simp only [specSurvives, Bool.and_eq_true, decide_eq_true_eq] at hs
        exact hs.1
    · subst hk
      rw [List.getElem?_append_right (le_refl _)] at hu
      simp at hu
      subst hu
      refine ⟨rfl, hf, ?_⟩
      intro j uj hkj huj
      rw [List.getElem?_eq_none (by simp; omega)] at huj
      cases huj

theorem applyUpdates_disjoint_lt (us : List PlanUpdate) :
    ∀ (i j : Nat) (ei ej : history.RestorePlanEntry) (fqn : String), i < j →
      (applyUpdates us)[i]? = some ei → (applyUpdates us)[j]? = some ej →
      fqn ∈ ei.TableFQNs → fqn ∉ ej.TableFQNs := by
  induction us using List.reverseRecOn with
  | nil => intro i j ei ej fqn _ h; simp [applyUpdates] at h
  | append_singleton us v ih =>
    intro i j ei ej fqn hij hi hj hf hf2
    rcases applyUpdates_snoc_get us v i ei hi with ⟨hik, ei0, hei0, _, hfi⟩ | ⟨hik, rfl⟩
    · rw [hfi, List.mem_filter] at hf
      rcases applyUpdates_snoc_get us v j ej hj with ⟨_, ej0, hej0, _, hfj⟩ | ⟨_, rfl⟩
      · rw [hfj, List.mem_filter] at hf2
        exact ih i j ei0 ej0 fqn hij hei0 hej0 hf.1 hf2.1
      · have hs := hf.2
        simp only [specSurvives, Bool.and_eq_true, decide_eq_true_eq] at hs
        exact hs.1 hf2
    · rcases applyUpdates_snoc_get us v j ej hj with ⟨hjk, _⟩ | ⟨hjk, _⟩ <;> omega

/-- C7: in every chain obtained from the empty chain by successive
`PopulateRestorePlan` updates, a table FQN occurs in at most one entry, the
entry appended by update `k` carries the timestamp of that update, and an FQN
that occurs in it was among the changed tables of update `k` and of no later
update. -/
theorem restorePlan_chain_invariant (updates : List PlanUpdate) :
    (applyUpdates updates).length = updates.length
    ∧ (∀ (i j : Nat) (ei ej : history.RestorePlanEntry) (fqn : String), i ≠ j →
        (applyUpdates updates)[i]? = some ei → (applyUpdates updates)[j]? = some ej →
        fqn ∈ ei.TableFQNs → fqn ∉ ej.TableFQNs)
    ∧ (∀ (k : Nat) (e : history.RestorePlanEntry) (u : PlanUpdate) (fqn : String),
        (applyUpdates updates)[k]? = some e → updates[k]? = some u → fqn ∈ e.TableFQNs →
        e.Timestamp = u.timestamp ∧ fqn ∈ u.changedTables.map Table.FQN
          ∧ ∀ (j : Nat) (uj : PlanUpdate), k < j → updates[j]? = some uj →
              fqn ∉ uj.changedTables.map Table.FQN) := by
  refine ⟨applyUpdates_length updates, ?_, applyUpdates_mem_changed updates⟩
  intro i j ei ej fqn hij hi hj hf hf2
  rcases Nat.lt_or_gt_of_ne hij with h | h
  · exact applyUpdates_disjoint_lt updates i j ei ej fqn h hi hj hf hf2
  · exact applyUpdates_disjoint_lt updates j i ej ei fqn h hj hi hf2 hf

end backup

/-! ## Statement extractor -/

namespace utils

theorem includeSet_matches (l : List String) (x : String) :
    (NewIncludeSet l).MatchesFilter x = true ↔ (l = [] ∨ x ∈ l) := by
  cases l with
  | nil => simp [NewIncludeSet, FilterSet.MatchesFilter]
  | cons a as => simp [NewIncludeSet, FilterSet.MatchesFilter]

theorem excludeSet_matches (l : List String) (x : String) :
    (NewExcludeSet l).MatchesFilter x = true ↔ x ∉ l := by
  cases l with
  | nil => simp [NewExcludeSet, FilterSet.MatchesFilter]
  | cons a as => simp [NewExcludeSet, FilterSet.MatchesFilter]

theorem readStatement_fields (file : List Char) (e : MetadataEntry) (st : StatementWithType)
    (h : readStatement file e = some st) :
    st.Schema = e.Schema ∧ st.Name = e.Name ∧ st.ObjectType = e.ObjectType
      ∧ st.ReferenceObject = e.ReferenceObject := by
  unfold readStatement at h
  dsimp only at h
  split at h
  · cases h
  · simp only [Option.some.injEq] at h
    subst h
    exact ⟨rfl, rfl, rfl, rfl⟩

theorem allStatementsLoop_acc (file : List Char) (es : List MetadataEntry)
    (acc : List StatementWithType) :
    allStatementsLoop file es acc = (allStatementsLoop file es []).map (fun l => acc ++ l) := by
  induction es generalizing acc with
  | nil => simp [allStatementsLoop]
  | cons e rest ih =>
    unfold allStatementsLoop
    cases h : readStatement file e with
    | none => simp
    | some st =>
      simp only
      rw [ih (acc ++ [st]), ih ([] ++ [st])]
      cases allStatementsLoop file rest [] <;> simp

theorem allStatementsLoop_cons (file : List Char) (e : MetadataEntry) (rest : List MetadataEntry)
    (all : List StatementWithType) (h : allStatementsLoop file (e :: rest) [] = some all) :
    ∃ st tail, readStatement file e = some st ∧ allStatementsLoop file rest [] = some tail
      ∧ all = st :: tail := by
  unfold allStatementsLoop at h
  cases hr : readStatement file e with
  | none => simp [hr] at h
  | some st =>
    simp only [hr] at h
    rw [allStatementsLoop_acc] at h
    cases ht : allStatementsLoop file rest [] with
    | none => simp [ht] at h
    | some tail =>
      simp [ht] at h
      exact ⟨st, tail, rfl, rfl, h.symm⟩

theorem statementsLoop_of_all (file : List Char) (I E S T : FilterSet) (tables : List String)
    (es : List MetadataEntry) :
    ∀ (acc all : List StatementWithType), allStatementsLoop file es [] = some all →
      statementsForObjectTypesLoop file I E S T tables es acc
        = some (acc ++ all.filter (selectsStatement I E S T tables)) := by
  induction es with
  | nil =>
    intro acc all h
    simp [allStatementsLoop] at h
    subst h
    simp [statementsForObjectTypesLoop]
  | cons e rest ih =>
    intro acc all h
    obtain ⟨st, tail, hr, ht, hall⟩ := allStatementsLoop_cons file e rest all h
    obtain ⟨h1, h2, h3, h4⟩ := readStatement_fields file e st hr
    subst hall
    unfold statementsForObjectTypesLoop
    have hsel : selectsStatement I E S T tables st
        = ((I.MatchesFilter e.ObjectType && E.MatchesFilter e.ObjectType)
            && S.MatchesFilter e.Schema
            && (tables.length == 0
                || (e.ObjectType == "TABLE" && T.MatchesFilter (MakeFQN e.Schema e.Name))
                || T.MatchesFilter e.ReferenceObject)) := by
      simp only [selectsStatement, h1, h2, h3, h4]
    simp only [← hsel, hr]
    by_cases hs : selectsStatement I E S T tables st = true
    · simp only [hs, if_true, List.filter_cons_of_pos]
      rw [ih (acc ++ [st]) tail ht]
      simp
    · simp only [hs, List.filter_cons_of_neg, Bool.false_eq_true, if_false, not_false_eq_true]
      exact ih acc tail ht

theorem getSQLStatement_of_getAll (toc : TOC) (sectionName : String) (file : List Char)
    (inc exc schemas tables : List String) (all : List StatementWithType)
    (hall : toc.GetAllSQLStatements sectionName file = some all) :
    toc.GetSQLStatementForObjectTypes sectionName file inc exc schemas tables
      = some (all.filter (selectsStatement (NewIncludeSet inc) (NewExcludeSet exc)
          (NewIncludeSet schemas) (NewIncludeSet tables) tables)) := by
  unfold TOC.GetAllSQLStatements at hall
  unfold TOC.GetSQLStatementForObjectTypes
  cases hl : toc.metadataEntryMap.lookup sectionName with
  | none => simp [hl] at hall
  | some ptr =>
    simp only [hl] at hall
    simp only
    rw [statementsLoop_of_all file _ _ _ _ tables (toc.deref ptr) [] all hall]
    simp

/-- C8: with an empty `includeTables` list, and when `GetAllSQLStatements`
returns for the same section and file, `GetSQLStatementForObjectTypes` returns
exactly the sub-list of that result, in order, of the statements whose object
type is in `includeObjectTypes` (or that list is empty), is not in
`excludeObjectTypes`, and whose schema is in `includeSchemas` (or that list is
empty); no returned statement has an excluded type, included or not. -/
theorem getSQLStatementForObjectTypes_no_table_filter (toc : TOC) (sectionName : String)
    (metadataFile : List Char) (includeObjectTypes excludeObjectTypes includeSchemas : List String)
    (all : List StatementWithType)
    (hall : toc.GetAllSQLStatements sectionName metadataFile = some all) :
    toc.GetSQLStatementForObjectTypes sectionName metadataFile includeObjectTypes
        excludeObjectTypes includeSchemas []
      = some (all.filter (fun s => decide (
          (includeObjectTypes = [] ∨ s.ObjectType ∈ includeObjectTypes)
          ∧ s.ObjectType ∉ excludeObjectTypes
          ∧ (includeSchemas = [] ∨ s.Schema ∈ includeSchemas))))
    ∧ (∀ res, toc.GetSQLStatementForObjectTypes sectionName metadataFile includeObjectTypes
          excludeObjectTypes includeSchemas [] = some res →
        ∀ s ∈ res, s.ObjectType ∉ excludeObjectTypes) := by
  have hmain := getSQLStatement_of_getAll toc sectionName metadataFile includeObjectTypes
    excludeObjectTypes includeSchemas [] all hall
  have hfun : selectsStatement (NewIncludeSet includeObjectTypes)
      (NewExcludeSet excludeObjectTypes) (NewIncludeSet includeSchemas) (NewIncludeSet []) []
      = (fun s => decide (
          (includeObjectTypes = [] ∨ s.ObjectType ∈ includeObjectTypes)
          ∧ s.ObjectType ∉ excludeObjectTypes
          ∧ (includeSchemas = [] ∨ s.Schema ∈ includeSchemas))) := by
    funext s
    rw [Bool.eq_iff_iff]
    simp only [selectsStatement, Bool.and_eq_true, includeSet_matches, excludeSet_matches,
      List.length_nil, beq_self_eq_true, Bool.true_or, and_true, decide_eq_true_eq]
    tauto
  rw [hfun] at hmain
  refine ⟨hmain, ?_⟩
  intro res hres s hs
  rw [hmain] at hres
  simp only [Option.some.injEq] at hres
  subst hres
  have := (List.mem_filter.mp hs).2
  simp only [decide_eq_true_eq] at this
  exact this.2.1

end utils

namespace utils

/-- Witness for C8: an include list, an exclude list that removes an included
type, and a schema list, on the predata section of the sample TOC. -/
theorem getSQLStatementForObjectTypes_no_table_filter_witness :
    sampleTOC.GetSQLStatementForObjectTypes "predata" sampleFile ["TABLE", "VIEW"] ["VIEW"]
        ["public"] []
      = some [⟨"public", "t1", "TABLE", "", "CREATE TABLE public.t1;"⟩] :=
  (getSQLStatementForObjectTypes_no_table_filter sampleTOC "predata" sampleFile
    ["TABLE", "VIEW"] ["VIEW"] ["public"]
    [⟨"public", "t1", "TABLE", "", "CREATE TABLE public.t1;"⟩,
     ⟨"public", "v1", "VIEW", "", "CREATE VIEW public.v1;"⟩,
     ⟨"other", "t2", "TABLE", "", "CREATE TABLE other.t2;"⟩] (by decide)).1.trans (by decide)

/-- C3, counterexample: with `includeTables = ["public.v1"]` and no other
filter, the view whose own FQN is `public.v1` is in range and is not returned. -/
theorem own_fqn_of_non_table_not_selected :
    sampleViewTOC.GetAllSQLStatements "predata" sampleViewFile
      = some [⟨"public", "v1", "VIEW", "", "CREATE VIEW public.v1;"⟩,
              ⟨"public", "i1", "INDEX", "public.t2", "CREATE INDEX i1 ON public.t2;"⟩,
              ⟨"public", "t2", "TABLE", "", "CREATE TABLE public.t2;"⟩]
    ∧ MakeFQN "public" "v1" ∈ ["public.v1"]
    ∧ sampleViewTOC.GetSQLStatementForObjectTypes "predata" sampleViewFile [] [] []
        ["public.v1"] = some [] := by
  decide

/-- C3, amended: with a non-empty `includeTables` list and no type or schema
restriction, and when every entry of the section is in range,
`GetSQLStatementForObjectTypes` returns, in emission order, exactly the
statements of the entries that are of object type `TABLE` with their own FQN
in `includeTables`, or whose `ReferenceObject` is in `includeTables`. -/
theorem getSQLStatementForObjectTypes_table_filter (toc : TOC) (sectionName : String)
    (metadataFile : List Char) (includeTables : List String) (all : List StatementWithType)
    (hne : includeTables ≠ [])
    (hall : toc.GetAllSQLStatements sectionName metadataFile = some all) :
    toc.GetSQLStatementForObjectTypes sectionName metadataFile [] [] [] includeTables
      = some (all.filter (fun s => decide (
          (s.ObjectType = "TABLE" ∧ MakeFQN s.Schema s.Name ∈ includeTables)
          ∨ s.ReferenceObject ∈ includeTables))) := by
  have hmain := getSQLStatement_of_getAll toc sectionName metadataFile [] [] []
    includeTables all hall
  have hfun : selectsStatement (NewIncludeSet []) (NewExcludeSet []) (NewIncludeSet [])
      (NewIncludeSet includeTables) includeTables
      = (fun s => decide (
          (s.ObjectType = "TABLE" ∧ MakeFQN s.Schema s.Name ∈ includeTables)
          ∨ s.ReferenceObject ∈ includeTables)) := by
    funext s
    rw [Bool.eq_iff_iff]
    have hlen : (includeTables.length == 0) = false := by
      cases includeTables with
      | nil => exact absurd rfl hne
      | cons a as => rfl
    simp only [selectsStatement, Bool.and_eq_true, Bool.or_eq_true, includeSet_matches,
      excludeSet_matches, hlen, beq_iff_eq, decide_eq_true_eq, hne, false_or,
      Bool.false_eq_true, List.not_mem_nil, not_false_eq_true, true_or, true_and, and_true]
  rw [hfun] at hmain
  exact hmain

/-- Witness for the amended C3: the table `public.t2` and the index that
refers to it are returned, the view is not. -/
theorem getSQLStatementForObjectTypes_table_filter_witness :
    sampleViewTOC.GetSQLStatementForObjectTypes "predata" sampleViewFile [] [] [] ["public.t2"]
      = some [⟨"public", "i1", "INDEX", "public.t2", "CREATE INDEX i1 ON public.t2;"⟩,
              ⟨"public", "t2", "TABLE", "", "CREATE TABLE public.t2;"⟩] :=
  (getSQLStatementForObjectTypes_table_filter sampleViewTOC "predata" sampleViewFile
    ["public.t2"]
    [⟨"public", "v1", "VIEW", "", "CREATE VIEW public.v1;"⟩,
     ⟨"public", "i1", "INDEX", "public.t2", "CREATE INDEX i1 ON public.t2;"⟩,
     ⟨"public", "t2", "TABLE", "", "CREATE TABLE public.t2;"⟩] (by decide) (by decide)).trans
    (by decide)

end utils

/-! ## Round trip of the TOC index -/

namespace utils

theorem assign_map (toc : TOC) (ptr : EntriesPtr) (v : List MetadataEntry) :
    (toc.assign ptr v).metadataEntryMap = toc.metadataEntryMap := by
  cases ptr <;> rfl

theorem deref_assign (toc : TOC) (ptr : EntriesPtr) (v : List MetadataEntry) :
    (toc.assign ptr v).deref ptr = v := by
  cases ptr <;> rfl

theorem assign_assign (toc : TOC) (ptr : EntriesPtr) (v w : List MetadataEntry) :
    (toc.assign ptr v).assign ptr w = toc.assign ptr w := by
  cases ptr <;> rfl

theorem emitAll_layout (sectionName : String) (ptr : EntriesPtr) (items : List EmittedStatement) :
    ∀ (toc : TOC) (file : FileWithByteCount),
      toc.metadataEntryMap.lookup sectionName = some ptr →
      file.ByteCount = file.written.length →
      file.written.length + (streamOf items).length < 18446744073709551616 →
      emitAll sectionName (toc, file) items
        = some (toc.assign ptr (toc.deref ptr ++ layout file.written.length items),
                { written := file.written ++ streamOf items,
                  ByteCount := file.written.length + (streamOf items).length }) := by
  induction items with
  | nil =>
    intro toc file _ hcount _
    cases file with
    | mk written count =>
      simp only at hcount
      subst hcount
      cases ptr <;> simp [emitAll, layout, streamOf, TOC.assign, TOC.deref]
  | cons s rest ih =>
    intro toc file hmap hcount hlen
    simp only [streamOf, List.length_append] at hlen
    have h1 : (file.ByteCount + s.gap.data.length) % 18446744073709551616
        = file.written.length + s.gap.data.length := by
      rw [hcount]
      exact Nat.mod_eq_of_lt (by omega)
    have h2 : (file.written.length + s.gap.data.length + s.Statement.data.length)
        % 18446744073709551616
        = file.written.length + s.gap.data.length + s.Statement.data.length :=
      Nat.mod_eq_of_lt (by omega)
    unfold emitAll emitStatement
    simp only [FileWithByteCount.MustPrint, TOC.AddMetadataEntry, hmap, h1, h2]
    rw [ih _ _ (by rw [assign_map]; exact hmap) (by simp [Nat.add_assoc])
      (by simp only [List.length_append]; omega)]
    simp only [deref_assign, assign_assign, List.length_append, layout, streamOf,
      List.append_assoc, List.singleton_append, Nat.add_assoc]

theorem readStatement_at (pre post : List Char) (text : String) (e : MetadataEntry)
    (hstart : e.StartByte = pre.length)
    (hend : e.EndByte = pre.length + text.data.length)
    (hlen : pre.length + text.data.length < 9223372036854775808) :
    readStatement (pre ++ text.data ++ post) e
      = some { Schema := e.Schema, Name := e.Name, ObjectType := e.ObjectType,
               ReferenceObject := e.ReferenceObject, Statement := text } := by
  have hn : (e.EndByte % 18446744073709551616 + 18446744073709551616
      - e.StartByte % 18446744073709551616) % 18446744073709551616 = text.data.length := by
    rw [hstart, hend]
    omega
  have hoff : toInt64 e.StartByte = (pre.length : Int) := by
    unfold toInt64
    rw [hstart, Nat.mod_eq_of_lt (by omega), if_pos (by omega)]
  have hdrop : List.drop pre.length (pre ++ text.data ++ post) = text.data ++ post := by
    rw [List.append_assoc, List.drop_left]
  unfold readStatement
  simp only [hn, hoff, ReadAt, Int.toNat_ofNat, hdrop]
  rw [if_neg (by omega), if_neg (by simp)]
  simp

theorem allStatementsLoop_layout (items : List EmittedStatement) :
    ∀ (pre post : List Char),
      pre.length + (streamOf items).length < 9223372036854775808 →
      allStatementsLoop (pre ++ streamOf items ++ post) (layout pre.length items) []
        = some (items.map EmittedStatement.toStatement) := by
  induction items with
  | nil => intro pre post _; rfl
  | cons s rest ih =>
    intro pre post hlen
    simp only [streamOf, List.length_append] at hlen
    have hfile : pre ++ streamOf (s :: rest) ++ post
        = (pre ++ s.gap.data) ++ s.Statement.data ++ (streamOf rest ++ post) := by
      simp [streamOf, List.append_assoc]
    have hread := readStatement_at (pre ++ s.gap.data) (streamOf rest ++ post) s.Statement
      { Schema := s.Schema, Name := s.Name, ObjectType := s.ObjectType,
        ReferenceObject := s.ReferenceObject,
        StartByte := pre.length + s.gap.data.length,
        EndByte := pre.length + s.gap.data.length + s.Statement.data.length }
      (by simp) (by simp) (by simp only [List.length_append]; omega)
    have hrest := ih (pre ++ s.gap.data ++ s.Statement.data) post
      (by simp only [List.length_append]; omega)
    have hfile2 : pre ++ s.gap.data ++ s.Statement.data ++ streamOf rest ++ post
        = (pre ++ s.gap.data) ++ s.Statement.data ++ (streamOf rest ++ post) := by
      simp [List.append_assoc]
    rw [hfile2] at hrest
    simp only [List.length_append] at hrest
    rw [hfile]
    simp only [layout, allStatementsLoop, hread]
    rw [allStatementsLoop_acc, hrest]
    rfl

/-- C4: statements written in order to an empty stream, with arbitrary gaps
before, between and after them, each followed by a call of `AddMetadataEntry`
for one section with the offset at which the statement began, are read back by
`GetAllSQLStatements` from the final stream: the call succeeds and returns one
statement per written statement, in order, with the recorded schema, name,
object type and reference object and with the written text. The stream is
shorter than `2^63` bytes, the range of a file offset. -/
theorem toc_index_write_read_round_trip (sectionName : String)
    (items : List EmittedStatement) (trailing : String)
    (hsection : sectionName ∈ ["global", "predata", "postdata", "statistics"])
    (hlen : (streamOf items).length + trailing.data.length < 9223372036854775808) :
    ∃ toc file,
      emitAll sectionName (TOC.zero.InitializeEntryMap, ⟨[], 0⟩) items = some (toc, file)
      ∧ (file.MustPrint trailing).written = streamOf items ++ trailing.data
      ∧ toc.GetAllSQLStatements sectionName (file.MustPrint trailing).written
          = some (items.map EmittedStatement.toStatement) := by
  have hptr : ∃ ptr, TOC.zero.InitializeEntryMap.metadataEntryMap.lookup sectionName = some ptr
      ∧ TOC.zero.InitializeEntryMap.deref ptr = [] := by
    simp only [List.mem_cons, List.mem_singleton, List.not_mem_nil, or_false] at hsection
    rcases hsection with rfl | rfl | rfl | rfl
    · exact ⟨.GlobalEntries, by decide, rfl⟩
    · exact ⟨.PredataEntries, by decide, rfl⟩
    · exact ⟨.PostdataEntries, by decide, rfl⟩
    · exact ⟨.StatisticsEntries, by decide, rfl⟩
  obtain ⟨ptr, hmap, hempty⟩ := hptr
  have hemit := emitAll_layout sectionName ptr items TOC.zero.InitializeEntryMap ⟨[], 0⟩ hmap rfl
    (by simp only [List.length_nil]; omega)
  refine ⟨_, _, hemit, ?_, ?_⟩
  · simp [FileWithByteCount.MustPrint]
  · have hread := allStatementsLoop_layout items [] trailing.data
      (by simp only [List.length_nil]; omega)
    simp only [List.nil_append, List.length_nil] at hread
    simp only [TOC.GetAllSQLStatements, assign_map, hmap, deref_assign, hempty,
      FileWithByteCount.MustPrint, List.nil_append, List.length_nil]
    exact hread

/-- Witness for C4: two statements in the predata section, a gap before each
and a trailing gap. -/
theorem toc_index_write_read_round_trip_witness :
    ∃ toc file,
      emitAll "predata" (TOC.zero.InitializeEntryMap, ⟨[], 0⟩)
          [⟨"-- table\n", "public", "t1", "TABLE", "", "CREATE TABLE public.t1;"⟩,
           ⟨"\n\n", "public", "i1", "INDEX", "public.t1", "CREATE INDEX i1 ON public.t1;"⟩]
        = some (toc, file)
      ∧ (file.MustPrint "\n").written
        = streamOf
            [⟨"-- table\n", "public", "t1", "TABLE", "", "CREATE TABLE public.t1;"⟩,
             ⟨"\n\n", "public", "i1", "INDEX", "public.t1", "CREATE INDEX i1 ON public.t1;"⟩]
          ++ "\n".data
      ∧ toc.GetAllSQLStatements "predata" (file.MustPrint "\n").written
        = some [⟨"public", "t1", "TABLE", "", "CREATE TABLE public.t1;"⟩,
                ⟨"public", "i1", "INDEX", "public.t1", "CREATE INDEX i1 ON public.t1;"⟩] :=
  toc_index_write_read_round_trip "predata"
    [⟨"-- table\n", "public", "t1", "TABLE", "", "CREATE TABLE public.t1;"⟩,
     ⟨"\n\n", "public", "i1", "INDEX", "public.t1", "CREATE INDEX i1 ON public.t1;"⟩]
    "\n" (by decide) (by decide)

end utils

/-! ## Exactly compared fields and the anchor timestamp -/

namespace backup

/-- C11: a history entry that differs from the current run in backup
directory, database name, leaf-partition-data flag, single-data-file flag or
compression flag does not match, and `GetLatestMatchingBackupConfig` does not
return it, whatever the history. -/
theorem exact_field_difference_breaks_match (flags : Flags) (h c : history.BackupConfig)
    (hdiff : h.BackupDir ≠ flags.BACKUP_DIR ∨ h.DatabaseName ≠ c.DatabaseName
      ∨ h.LeafPartitionData ≠ flags.LEAF_PARTITION_DATA
      ∨ h.SingleDataFile ≠ flags.SINGLE_DATA_FILE ∨ h.Compressed ≠ c.Compressed) :
    matchesIncrementalFlags flags h c = false
    ∧ ∀ hist : history.History, GetLatestMatchingBackupConfig flags hist c ≠ some h := by
  have hfalse : matchesIncrementalFlags flags h c = false := by
    rw [← Bool.not_eq_true, matchesIncrementalFlags_iff]
    tauto
  refine ⟨hfalse, ?_⟩
  intro hist hsome
  obtain ⟨_, _, _, _, hm⟩ := latestMatchingLoop_some flags c hist.BackupConfigs h hsome
  rw [hfalse] at hm
  cases hm

/-- Witness for C11: the entry differs in the leaf-partition-data flag only. -/
theorem exact_field_difference_breaks_match_witness :
    matchesIncrementalFlags ⟨"/backups", true, false, [], [], []⟩
        ⟨"20180101000000", "/backups", "testdb", false, "", false, true, [], [], [], []⟩
        ⟨"20180102000000", "/backups", "testdb", true, "", false, true, [], [], [], []⟩ = false
    ∧ ∀ hist : history.History,
        GetLatestMatchingBackupConfig ⟨"/backups", true, false, [], [], []⟩ hist
          ⟨"20180102000000", "/backups", "testdb", true, "", false, true, [], [], [], []⟩
        ≠ some ⟨"20180101000000", "/backups", "testdb", false, "", false, true, [], [], [], []⟩ :=
  exact_field_difference_breaks_match ⟨"/backups", true, false, [], [], []⟩
    ⟨"20180101000000", "/backups", "testdb", false, "", false, true, [], [], [], []⟩
    ⟨"20180102000000", "/backups", "testdb", true, "", false, true, [], [], [], []⟩
    (Or.inr (Or.inr (Or.inl (by decide))))

/-- C12, counterexample: the history is readable and its only entry matches
the current run, but the entry has an empty `Timestamp`: the function returns
the empty string for a found match. -/
theorem empty_timestamp_of_match_returned :
    matchesIncrementalFlags ⟨"/backups", false, false, [], [], []⟩
        ⟨"", "/backups", "testdb", false, "", false, true, [], [], [], []⟩
        ⟨"20180102000000", "/backups", "testdb", false, "", false, true, [], [], [], []⟩ = true
    ∧ GetLatestMatchingBackupTimestamp ⟨"/backups", false, false, [], [], []⟩ true
        (some ⟨[⟨"", "/backups", "testdb", false, "", false, true, [], [], [], []⟩]⟩)
        ⟨"20180102000000", "/backups", "testdb", false, "", false, true, [], [], [], []⟩
      = some "" := by
  decide

/-- C12, amended: `GetLatestMatchingBackupTimestamp` aborts exactly when the
history file is absent or unreadable, cannot be loaded, or holds no entry that
matches the current configuration; otherwise it returns the `Timestamp` of the
first matching entry of the history, whatever that field holds. -/
theorem getLatestMatchingBackupTimestamp_spec (flags : Flags) (fileExistsAndIsReadable : Bool)
    (newHistory : Option history.History) (currentBackupConfig : history.BackupConfig) :
    (GetLatestMatchingBackupTimestamp flags fileExistsAndIsReadable newHistory
        currentBackupConfig = none
      ↔ (fileExistsAndIsReadable = false ∨ newHistory = none
          ∨ ∃ hist, newHistory = some hist
              ∧ ∀ e ∈ hist.BackupConfigs,
                  matchesIncrementalFlags flags e currentBackupConfig = false))
    ∧ (∀ ts, GetLatestMatchingBackupTimestamp flags fileExistsAndIsReadable newHistory
          currentBackupConfig = some ts →
        ∃ hist pre r post, fileExistsAndIsReadable = true ∧ newHistory = some hist
          ∧ hist.BackupConfigs = pre ++ r :: post
          ∧ (∀ e ∈ pre, matchesIncrementalFlags flags e currentBackupConfig = false)
          ∧ matchesIncrementalFlags flags r currentBackupConfig = true
          ∧ ts = r.Timestamp) := by
  cases fileExistsAndIsReadable with
  | false =>
    have hval : GetLatestMatchingBackupTimestamp flags false newHistory currentBackupConfig
        = none := rfl
    rw [hval]
    exact ⟨⟨fun _ => Or.inl rfl, fun _ => rfl⟩, fun ts hts => by cases hts⟩
  | true =>
    cases newHistory with
    | none =>
      have hval : GetLatestMatchingBackupTimestamp flags true none currentBackupConfig
          = none := rfl
      rw [hval]
      exact ⟨⟨fun _ => Or.inr (Or.inl rfl), fun _ => rfl⟩, fun ts hts => by cases hts⟩
    | some hist =>
      cases hfound : GetLatestMatchingBackupConfig flags hist currentBackupConfig with
      | none =>
        have hval : GetLatestMatchingBackupTimestamp flags true (some hist) currentBackupConfig
            = none := by
          simp [GetLatestMatchingBackupTimestamp, hfound]
        have hnone := (latestMatchingLoop_none flags currentBackupConfig hist.BackupConfigs).mp
          hfound
        rw [hval]
        exact ⟨⟨fun _ => Or.inr (Or.inr ⟨hist, rfl, hnone⟩), fun _ => rfl⟩,
          fun ts hts => by cases hts⟩
      | some r =>
        have hval : GetLatestMatchingBackupTimestamp flags true (some hist) currentBackupConfig
            = some r.Timestamp := by
          simp [GetLatestMatchingBackupTimestamp, hfound]
        obtain ⟨pre, post, hsplit, hpre, hr⟩ :=
          latestMatchingLoop_some flags currentBackupConfig hist.BackupConfigs r hfound
        rw [hval]
        refine ⟨⟨fun h => Option.noConfusion h, ?_⟩, ?_⟩
        · intro h
          rcases h with h | h | ⟨hist2, h2, hall⟩
          · cases h
          · cases h
          · cases h2
            have hm := hall r (by rw [hsplit]; simp)
            rw [hr] at hm
            cases hm
        · intro ts hts
          cases hts
          exact ⟨hist, pre, r, post, rfl, rfl, hsplit, hpre, hr, rfl⟩

end backup

/-! ## Data entries and the active role -/

namespace utils

theorem hashesOf_lookup_aux (l : List String) (m : List (String × Bool)) (k : String) :
    ((l.foldl (fun m x => (x, true) :: m) m).lookup k).isSome
      = (decide (k ∈ l) || (m.lookup k).isSome) := by
  induction l generalizing m with
  | nil => simp
  | cons x xs ih =>
    simp only [List.foldl_cons, ih, List.mem_cons]
    by_cases hk : k = x
    · subst hk
      simp [List.lookup]
    · have hb : (k == x) = false := by simpa using hk
      simp [List.lookup, hb, hk]

theorem hashesOf_lookup (l : List String) (k : String) :
    ((hashesOf l).lookup k).isSome = decide (k ∈ l) := by
  unfold hashesOf
  rw [hashesOf_lookup_aux]
  simp [List.lookup]

/-- C14: `GetDataEntriesMatching` returns exactly the sub-list of
`toc.DataEntries`, in order and unchanged, of the entries whose schema is in
`includeSchemas` (or that list is empty) and whose FQN `Schema.Name` is in
`includeTables` (or that list is empty); with both lists empty it returns all
data entries, and when nothing matches it returns the empty list. -/
theorem getDataEntriesMatching_spec (toc : TOC) (includeSchemas includeTables : List String) :
    toc.GetDataEntriesMatching includeSchemas includeTables
      = toc.DataEntries.filter (fun e => decide (
          (includeSchemas = [] ∨ e.Schema ∈ includeSchemas)
          ∧ (includeTables = [] ∨ e.Schema ++ "." ++ e.Name ∈ includeTables)))
    ∧ toc.GetDataEntriesMatching [] [] = toc.DataEntries
    ∧ ((∀ e ∈ toc.DataEntries, ¬ ((includeSchemas = [] ∨ e.Schema ∈ includeSchemas)
          ∧ (includeTables = [] ∨ e.Schema ++ "." ++ e.Name ∈ includeTables))) →
        toc.GetDataEntriesMatching includeSchemas includeTables = []) := by
  have main : ∀ (schemas tables : List String),
      toc.GetDataEntriesMatching schemas tables
        = toc.DataEntries.filter (fun e => decide (
            (schemas = [] ∨ e.Schema ∈ schemas)
            ∧ (tables = [] ∨ e.Schema ++ "." ++ e.Name ∈ tables))) := by
    intro schemas tables
    unfold TOC.GetDataEntriesMatching
    simp only
    have hstep : (fun (matchingEntries : List MasterDataEntry) (entry : MasterDataEntry) =>
        if ((schemas.length == 0
              || ((if (!(schemas.length == 0)) = true then hashesOf schemas else []).lookup
                    entry.Schema).isSome)
            && (tables.length == 0
              || ((if (!(tables.length == 0)) = true then hashesOf tables else []).lookup
                    (MakeFQN entry.Schema entry.Name)).isSome)) = true
        then matchingEntries ++ [entry] else matchingEntries)
        = fun acc e => if (decide ((schemas = [] ∨ e.Schema ∈ schemas)
            ∧ (tables = [] ∨ e.Schema ++ "." ++ e.Name ∈ tables))) = true
          then acc ++ [e] else acc := by
      funext acc e
      congr 1
      rw [eq_iff_iff]
      cases schemas <;> cases tables <;>
        simp [hashesOf_lookup, MakeFQN, List.lookup]
    rw [hstep, foldl_append_if]
    simp
  refine ⟨main _ _, ?_, ?_⟩
  · rw [main]
    simp
  · intro hnone
    rw [main, List.filter_eq_nil_iff]
    intro e he
    simpa using hnone e he

/-- C15: `RemoveActiveRole` returns exactly the sub-list of `statements`, in
order and unchanged, of the statements that are not both of object type
`ROLE` and named `activeUser`; applying it a second time changes nothing. -/
theorem removeActiveRole_spec (activeUser : String) (statements : List StatementWithType) :
    RemoveActiveRole activeUser statements
      = statements.filter (fun s =>
          decide (¬ (s.ObjectType = "ROLE" ∧ s.Name = activeUser)))
    ∧ RemoveActiveRole activeUser (RemoveActiveRole activeUser statements)
      = RemoveActiveRole activeUser statements := by
  have main : ∀ l : List StatementWithType,
      RemoveActiveRole activeUser l
        = l.filter (fun s => decide (¬ (s.ObjectType = "ROLE" ∧ s.Name = activeUser))) := by
    intro l
    unfold RemoveActiveRole
    have hstep : (fun (newStatements : List StatementWithType) (statement : StatementWithType) =>
        if (statement.ObjectType == "ROLE" && statement.Name == activeUser) = true
        then newStatements else newStatements ++ [statement])
        = fun acc s => if (decide (¬ (s.ObjectType = "ROLE" ∧ s.Name = activeUser))) = true
          then acc ++ [s] else acc := by
      funext acc s
      by_cases h : s.ObjectType = "ROLE" ∧ s.Name = activeUser
      · simp [h.1, h.2]
      · have hb : (s.ObjectType == "ROLE" && s.Name == activeUser) = false := by
          rw [← Bool.not_eq_true]
          simpa using h
        simp [hb, h]
    rw [hstep, foldl_append_if]
    simp
  refine ⟨main _, ?_⟩
  rw [main, main, List.filter_filter]
  congr 1
  funext s
  simp

end utils

/-! ## Adding entries -/

namespace utils

theorem lookup_initialized (toc : TOC)
    (hinit : toc.metadataEntryMap = TOC.zero.InitializeEntryMap.metadataEntryMap) :
    toc.metadataEntryMap.lookup "global" = some .GlobalEntries
    ∧ toc.metadataEntryMap.lookup "predata" = some .PredataEntries
    ∧ toc.metadataEntryMap.lookup "postdata" = some .PostdataEntries
    ∧ toc.metadataEntryMap.lookup "statistics" = some .StatisticsEntries := by
  rw [hinit]
  decide

/-- C20: on an initialized TOC, `AddMetadataEntry` for one of the sections
global, predata, postdata and statistics appends exactly the entry
`(schema, name, objectType, referenceObject, start, file.ByteCount)` at the
end of that section and changes nothing else; `AddGlobalEntry` and
`AddStatisticsEntry` do so with an empty reference object, `AddPredataEntry`
and `AddPostdataEntry` do so in the predata and the postdata section. -/
theorem addMetadataEntry_frame (toc : TOC) (schema name objectType referenceObject : String)
    (start : Nat) (file : FileWithByteCount)
    (hinit : toc.metadataEntryMap = TOC.zero.InitializeEntryMap.metadataEntryMap) :
    toc.AddMetadataEntry schema name objectType referenceObject start file "global"
      = some { toc with GlobalEntries := toc.GlobalEntries
                ++ [⟨schema, name, objectType, referenceObject, start, file.ByteCount⟩] }
    ∧ toc.AddMetadataEntry schema name objectType referenceObject start file "predata"
      = some { toc with PredataEntries := toc.PredataEntries
                ++ [⟨schema, name, objectType, referenceObject, start, file.ByteCount⟩] }
    ∧ toc.AddMetadataEntry schema name objectType referenceObject start file "postdata"
      = some { toc with PostdataEntries := toc.PostdataEntries
                ++ [⟨schema, name, objectType, referenceObject, start, file.ByteCount⟩] }
    ∧ toc.AddMetadataEntry schema name objectType referenceObject start file "statistics"
      = some { toc with StatisticsEntries := toc.StatisticsEntries
                ++ [⟨schema, name, objectType, referenceObject, start, file.ByteCount⟩] }
    ∧ toc.AddGlobalEntry schema name objectType start file
      = some { toc with GlobalEntries := toc.GlobalEntries
                ++ [⟨schema, name, objectType, "", start, file.ByteCount⟩] }
    ∧ toc.AddPredataEntry schema name objectType referenceObject start file
      = some { toc with PredataEntries := toc.PredataEntries
                ++ [⟨schema, name, objectType, referenceObject, start, file.ByteCount⟩] }
    ∧ toc.AddPostdataEntry schema name objectType referenceObject start file
      = some { toc with PostdataEntries := toc.PostdataEntries
                ++ [⟨schema, name, objectType, referenceObject, start, file.ByteCount⟩] }
    ∧ toc.AddStatisticsEntry schema name objectType start file
      = some { toc with StatisticsEntries := toc.StatisticsEntries
                ++ [⟨schema, name, objectType, "", start, file.ByteCount⟩] } := by
  obtain ⟨hg, hpre, hpost, hst⟩ := lookup_initialized toc hinit
  simp only [TOC.AddGlobalEntry, TOC.AddPredataEntry, TOC.AddPostdataEntry,
    TOC.AddStatisticsEntry, TOC.AddMetadataEntry, hg, hpre, hpost, hst, TOC.assign, TOC.deref]
  simp

/-- Witness for C20: an index entry added to the sample TOC, whose predata
section already holds three entries. -/
theorem addMetadataEntry_frame_witness :
    sampleTOC.AddPredataEntry "public" "i1" "INDEX" "public.t1" 75 ⟨sampleFile, 99⟩
      = some { sampleTOC with PredataEntries := sampleTOC.PredataEntries
                ++ [⟨"public", "i1", "INDEX", "public.t1", 75, 99⟩] } :=
  (addMetadataEntry_frame sampleTOC "public" "i1" "INDEX" "public.t1" 75 ⟨sampleFile, 99⟩
    rfl).2.2.2.2.2.1

end utils

/-! ## The entry invariant -/

namespace utils

theorem deref_assign_ne (toc : TOC) (p q : EntriesPtr) (v : List MetadataEntry) (h : p ≠ q) :
    (toc.assign p v).deref q = toc.deref q := by
  cases p <;> cases q <;> first | rfl | exact absurd rfl h

theorem addCall_run_eq (toc : TOC) (c : AddCall) :
    c.run toc = match toc.metadataEntryMap.lookup c.sectionName with
      | none => none
      | some ptr => some (toc.assign ptr (toc.deref ptr ++ [c.entry])) := by
  cases c <;> rfl

theorem addCall_entry_range (c : AddCall) :
    c.entry.StartByte = c.start ∧ c.entry.EndByte = c.byteCount := by
  cases c <;> exact ⟨rfl, rfl⟩

theorem entriesOrdered_snoc (l : List MetadataEntry) (e : MetadataEntry)
    (hl : entriesOrdered l) (he : e.StartByte < e.EndByte)
    (hlast : ∀ last, l.getLast? = some last → last.EndByte ≤ e.StartByte) :
    entriesOrdered (l ++ [e]) := by
  obtain ⟨hpos, hpair⟩ := hl
  refine ⟨?_, ?_⟩
  · intro x hx
    rcases List.mem_append.mp hx with hx | hx
    · exact hpos x hx
    · rw [List.mem_singleton] at hx
      subst hx
      exact he
  · rw [List.pairwise_append]
    refine ⟨hpair, List.pairwise_singleton _ _, ?_⟩
    intro a ha b hb
    rw [List.mem_singleton] at hb
    subst hb
    rcases List.eq_nil_or_concat l with hnil | ⟨init, last, hcat⟩
    · subst hnil
      cases ha
    · subst hcat
      have hlast2 := hlast last (by simp)
      rw [List.concat_eq_append] at ha hpair hpos
      rcases List.mem_append.mp ha with ha | ha
      · have h1 : a.EndByte ≤ last.StartByte :=
          (List.pairwise_append.mp hpair).2.2 a ha last (by simp)
        have h2 : last.StartByte < last.EndByte := hpos last (by simp)
        omega
      · rw [List.mem_singleton] at ha
        subst ha
        exact hlast2

theorem runCalls_ordered (calls : List AddCall) :
    ∀ toc : TOC, (∀ ptr, entriesOrdered (toc.deref ptr)) → disciplined toc calls = true →
      ∃ toc2, runCalls toc calls = some toc2 ∧ ∀ ptr, entriesOrdered (toc2.deref ptr) := by
  induction calls with
  | nil =>
    intro toc hinv _
    exact ⟨toc, rfl, hinv⟩
  | cons c cs ih =>
    intro toc hinv hd
    unfold disciplined at hd
    unfold runCalls
    rw [addCall_run_eq] at hd ⊢
    cases hl : toc.metadataEntryMap.lookup c.sectionName with
    | none => simp [hl] at hd
    | some ptr =>
      simp only [hl, Bool.and_eq_true, decide_eq_true_eq] at hd ⊢
      obtain ⟨⟨hstart, hlast⟩, hrest⟩ := hd
      obtain ⟨hs, he⟩ := addCall_entry_range c
      apply ih _ _ hrest
      intro q
      by_cases hq : ptr = q
      · subst hq
        rw [deref_assign]
        apply entriesOrdered_snoc _ _ (hinv ptr) (by omega)
        intro last hlastEq
        rw [hlastEq] at hlast
        simp only [decide_eq_true_eq] at hlast
        omega
      · rw [deref_assign_ne _ _ _ _ hq]
        exact hinv q

/-- C13, counterexample: three calls of `AddPredataEntry` on an initialized
empty TOC, the second with a start inside the range of the first and the third
with a start equal to the byte counter, leave a predata section whose first
two ranges overlap and whose third entry has `EndByte = StartByte`. -/
theorem unchecked_calls_break_entry_invariant :
    runCalls TOC.zero.InitializeEntryMap
        [.predata "public" "t1" "TABLE" "" 0 ⟨"0123456789".data, 10⟩,
         .predata "public" "t2" "TABLE" "" 4 ⟨"0123456789".data, 10⟩,
         .predata "public" "t3" "TABLE" "" 10 ⟨"0123456789".data, 10⟩]
      = some { TOC.zero.InitializeEntryMap with
          PredataEntries :=
            [⟨"public", "t1", "TABLE", "", 0, 10⟩, ⟨"public", "t2", "TABLE", "", 4, 10⟩,
             ⟨"public", "t3", "TABLE", "", 10, 10⟩] }
    ∧ ¬ ((⟨"public", "t3", "TABLE", "", 10, 10⟩ : MetadataEntry).EndByte
          > (⟨"public", "t3", "TABLE", "", 10, 10⟩ : MetadataEntry).StartByte)
    ∧ ¬ ((⟨"public", "t1", "TABLE", "", 0, 10⟩ : MetadataEntry).EndByte
          ≤ (⟨"public", "t2", "TABLE", "", 4, 10⟩ : MetadataEntry).StartByte
        ∨ (⟨"public", "t2", "TABLE", "", 4, 10⟩ : MetadataEntry).EndByte
          ≤ (⟨"public", "t1", "TABLE", "", 0, 10⟩ : MetadataEntry).StartByte) := by
  decide

/-- C13, amended: for every TOC built from an initialized empty TOC by a
sequence of calls of the five adding functions in which every call passes a
start offset below the byte counter it passes and at or after the `EndByte` of
the entry last added to the same section, every entry of every section has
`EndByte > StartByte` and any two entries at distinct positions of the same
section have ranges that do not overlap. -/
theorem disciplined_calls_keep_entry_invariant (calls : List AddCall)
    (hd : disciplined TOC.zero.InitializeEntryMap calls = true) :
    ∃ toc, runCalls TOC.zero.InitializeEntryMap calls = some toc
      ∧ ∀ ptr : EntriesPtr,
          (∀ e ∈ toc.deref ptr, e.EndByte > e.StartByte)
          ∧ (∀ (i j : Nat) (a b : MetadataEntry), i ≠ j →
              (toc.deref ptr)[i]? = some a → (toc.deref ptr)[j]? = some b →
              a.EndByte ≤ b.StartByte ∨ b.EndByte ≤ a.StartByte) := by
  have hinit : ∀ ptr, entriesOrdered (TOC.zero.InitializeEntryMap.deref ptr) := by
    intro ptr
    cases ptr <;> exact ⟨fun e he => absurd he (List.not_mem_nil e), List.Pairwise.nil⟩
  obtain ⟨toc, hrun, hord⟩ := runCalls_ordered calls _ hinit hd
  refine ⟨toc, hrun, fun ptr => ⟨(hord ptr).1, ?_⟩⟩
  have hpair := (hord ptr).2
  rw [List.pairwise_iff_getElem] at hpair
  intro i j a b hij hi hj
  obtain ⟨hi1, hi2⟩ := List.getElem?_eq_some_iff.mp hi
  obtain ⟨hj1, hj2⟩ := List.getElem?_eq_some_iff.mp hj
  subst hi2 hj2
  rcases Nat.lt_or_gt_of_ne hij with h | h
  · exact Or.inl (hpair i j hi1 hj1 h)
  · exact Or.inr (hpair j i hj1 hi1 h)

/-- Witness for the amended C13: two statements in the predata section and
one in the postdata section, written one after the other. -/
theorem disciplined_calls_keep_entry_invariant_witness :
    ∃ toc, runCalls TOC.zero.InitializeEntryMap
        [.predata "public" "t1" "TABLE" "" 2 ⟨"--CREATE".data, 8⟩,
         .postdata "public" "i1" "INDEX" "public.t1" 0 ⟨"CREATE INDEX".data, 12⟩,
         .metadata "public" "t2" "TABLE" "" 10 ⟨"--CREATE--CREATE".data, 16⟩ "predata"]
        = some toc
      ∧ ∀ ptr : EntriesPtr,
          (∀ e ∈ toc.deref ptr, e.EndByte > e.StartByte)
          ∧ (∀ (i j : Nat) (a b : MetadataEntry), i ≠ j →
              (toc.deref ptr)[i]? = some a → (toc.deref ptr)[j]? = some b →
              a.EndByte ≤ b.StartByte ∨ b.EndByte ≤ a.StartByte) :=
  disciplined_calls_keep_entry_invariant
    [.predata "public" "t1" "TABLE" "" 2 ⟨"--CREATE".data, 8⟩,
     .postdata "public" "i1" "INDEX" "public.t1" 0 ⟨"CREATE INDEX".data, 12⟩,
     .metadata "public" "t2" "TABLE" "" 10 ⟨"--CREATE--CREATE".data, 16⟩ "predata"]
    (by decide)

end utils

/-! ## Reads out of range -/

namespace utils

theorem readStatement_none_iff (file : List Char) (e : MetadataEntry)
    (hse : e.StartByte < e.EndByte) (hend : e.EndByte < 18446744073709551616)
    (hfile : file.length < 9223372036854775808) :
    readStatement file e = none ↔ file.length < e.EndByte := by
  have hn : (e.EndByte % 18446744073709551616 + 18446744073709551616
      - e.StartByte % 18446744073709551616) % 18446744073709551616
      = e.EndByte - e.StartByte := by omega
  have hmod : e.StartByte % 18446744073709551616 = e.StartByte := Nat.mod_eq_of_lt (by omega)
  unfold readStatement
  simp only [hn]
  by_cases hbig : e.StartByte < 9223372036854775808
  · have hoff : toInt64 e.StartByte = (e.StartByte : Int) := by
      unfold toInt64
      rw [hmod, if_pos hbig]
    rw [hoff]
    unfold ReadAt
    rw [if_neg (by omega)]
    simp only [Int.toNat_ofNat, List.length_drop]
    by_cases hshort : file.length - e.StartByte < e.EndByte - e.StartByte
    · rw [if_pos hshort]
      constructor
      · intro _
        omega
      · intro _
        rfl
    · rw [if_neg hshort]
      constructor
      · intro h
        cases h
      · intro h
        omega
  · have hoff : toInt64 e.StartByte = (e.StartByte : Int) - 18446744073709551616 := by
      unfold toInt64
      rw [hmod, if_neg hbig]
    rw [hoff]
    unfold ReadAt
    rw [if_pos (by omega)]
    constructor
    · intro _
      omega
    · intro _
      rfl

theorem allStatementsLoop_none_iff (file : List Char) (es : List MetadataEntry) :
    ∀ acc, allStatementsLoop file es acc = none ↔ ∃ e ∈ es, readStatement file e = none := by
  induction es with
  | nil => intro acc; simp [allStatementsLoop]
  | cons e rest ih =>
    intro acc
    unfold allStatementsLoop
    cases hr : readStatement file e with
    | none => simp [hr]
    | some st => simp [hr, ih]

theorem statementsLoop_none_iff (file : List Char) (I E S T : FilterSet) (tables : List String)
    (es : List MetadataEntry) :
    ∀ acc, statementsForObjectTypesLoop file I E S T tables es acc = none
      ↔ ∃ e ∈ es, selectsEntry I E S T tables e = true ∧ readStatement file e = none := by
  induction es with
  | nil => intro acc; simp [statementsForObjectTypesLoop]
  | cons e rest ih =>
    intro acc
    unfold statementsForObjectTypesLoop
    have hsel : ((I.MatchesFilter e.ObjectType && E.MatchesFilter e.ObjectType)
        && S.MatchesFilter e.Schema
        && (tables.length == 0
            || (e.ObjectType == "TABLE" && T.MatchesFilter (MakeFQN e.Schema e.Name))
            || T.MatchesFilter e.ReferenceObject)) = selectsEntry I E S T tables e := rfl
    simp only [hsel]
    by_cases hs : selectsEntry I E S T tables e = true
    · cases hr : readStatement file e with
      | none => simp [hs, hr]
      | some st => simp [hs, hr, ih]
    · simp [hs, ih]

theorem statementsLoop_nothing_selected (file : List Char) (I E S T : FilterSet)
    (tables : List String) (es : List MetadataEntry)
    (hnone : ∀ e ∈ es, selectsEntry I E S T tables e = false) :
    ∀ acc, statementsForObjectTypesLoop file I E S T tables es acc = some acc := by
  induction es with
  | nil => intro acc; rfl
  | cons e rest ih =>
    intro acc
    unfold statementsForObjectTypesLoop
    have hsel : ((I.MatchesFilter e.ObjectType && E.MatchesFilter e.ObjectType)
        && S.MatchesFilter e.Schema
        && (tables.length == 0
            || (e.ObjectType == "TABLE" && T.MatchesFilter (MakeFQN e.Schema e.Name))
            || T.MatchesFilter e.ReferenceObject)) = selectsEntry I E S T tables e := rfl
    simp only [hsel, hnone e (by simp), Bool.false_eq_true, if_false]
    exact ih (fun x hx => hnone x (by simp [hx])) acc

/-- C17: in a section of the map whose entries have `StartByte < EndByte`
(offsets being `uint64` values, the file shorter than `2^63` bytes),
`GetSQLStatementForObjectTypes` aborts when some entry that passes the filters
has `EndByte` beyond the file length and returns when every such entry has
`EndByte` at most the file length; `GetAllSQLStatements` does so with every
entry selected; and when no entry passes the filters the result is the empty
list, whatever the byte ranges and the file. -/
theorem out_of_range_reads_abort (toc : TOC) (sectionName : String) (ptr : EntriesPtr)
    (metadataFile : List Char)
    (includeObjectTypes excludeObjectTypes includeSchemas includeTables : List String)
    (hmap : toc.metadataEntryMap.lookup sectionName = some ptr) :
    ((∀ e ∈ toc.deref ptr, e.StartByte < e.EndByte ∧ e.EndByte < 18446744073709551616) →
      metadataFile.length < 9223372036854775808 →
      ((∃ e ∈ toc.deref ptr,
          selectsEntry (NewIncludeSet includeObjectTypes) (NewExcludeSet excludeObjectTypes)
            (NewIncludeSet includeSchemas) (NewIncludeSet includeTables) includeTables e = true
          ∧ metadataFile.length < e.EndByte) →
        toc.GetSQLStatementForObjectTypes sectionName metadataFile includeObjectTypes
          excludeObjectTypes includeSchemas includeTables = none)
      ∧ ((∀ e ∈ toc.deref ptr,
          selectsEntry (NewIncludeSet includeObjectTypes) (NewExcludeSet excludeObjectTypes)
            (NewIncludeSet includeSchemas) (NewIncludeSet includeTables) includeTables e = true →
          e.EndByte ≤ metadataFile.length) →
        ∃ res, toc.GetSQLStatementForObjectTypes sectionName metadataFile includeObjectTypes
          excludeObjectTypes includeSchemas includeTables = some res)
      ∧ ((∃ e ∈ toc.deref ptr, metadataFile.length < e.EndByte) →
        toc.GetAllSQLStatements sectionName metadataFile = none)
      ∧ ((∀ e ∈ toc.deref ptr, e.EndByte ≤ metadataFile.length) →
        ∃ res, toc.GetAllSQLStatements sectionName metadataFile = some res))
    ∧ ((∀ e ∈ toc.deref ptr,
          selectsEntry (NewIncludeSet includeObjectTypes) (NewExcludeSet excludeObjectTypes)
            (NewIncludeSet includeSchemas) (NewIncludeSet includeTables) includeTables e
            = false) →
        toc.GetSQLStatementForObjectTypes sectionName metadataFile includeObjectTypes
          excludeObjectTypes includeSchemas includeTables = some []) := by
  simp only [TOC.GetSQLStatementForObjectTypes, TOC.GetAllSQLStatements, hmap]
  refine ⟨?_, ?_⟩
  · intro hwf hfile
    have hread : ∀ e ∈ toc.deref ptr,
        (readStatement metadataFile e = none ↔ metadataFile.length < e.EndByte) :=
      fun e he => readStatement_none_iff metadataFile e (hwf e he).1 (hwf e he).2 hfile
    refine ⟨?_, ?_, ?_, ?_⟩
    · rintro ⟨e, he, hsel, hlen⟩
      rw [statementsLoop_none_iff]
      exact ⟨e, he, hsel, (hread e he).mpr hlen⟩
    · intro hall
      apply Option.ne_none_iff_exists'.mp
      rw [Ne, statementsLoop_none_iff]
      rintro ⟨e, he, hsel, hnone⟩
      have := (hread e he).mp hnone
      have := hall e he hsel
      omega
    · rintro ⟨e, he, hlen⟩
      rw [allStatementsLoop_none_iff]
      exact ⟨e, he, (hread e he).mpr hlen⟩
    · intro hall
      apply Option.ne_none_iff_exists'.mp
      rw [Ne, allStatementsLoop_none_iff]
      rintro ⟨e, he, hnone⟩
      have := (hread e he).mp hnone
      have := hall e he
      omega
  · intro hnone
    exact statementsLoop_nothing_selected metadataFile _ _ _ _ includeTables _ hnone []

/-- Witness for C17 on the sample TOC: the third statement lies beyond a file
cut to 60 bytes, so reading all statements aborts, reading the statements of
schema `public` returns, and a filter that selects nothing returns the empty
list. -/
theorem out_of_range_reads_abort_witness :
    sampleTOC.GetAllSQLStatements "predata" (sampleFile.take 60) = none
    ∧ (∃ res, sampleTOC.GetSQLStatementForObjectTypes "predata" (sampleFile.take 60) [] []
        ["public"] [] = some res)
    ∧ sampleTOC.GetSQLStatementForObjectTypes "predata" (sampleFile.take 60) ["INDEX"] [] []
        [] = some [] :=
  have h := out_of_range_reads_abort sampleTOC "predata" .PredataEntries (sampleFile.take 60)
    [] [] ["public"] [] (by decide)
  have h2 := out_of_range_reads_abort sampleTOC "predata" .PredataEntries (sampleFile.take 60)
    ["INDEX"] [] [] [] (by decide)
  ⟨(h.1 (by decide) (by decide)).2.2.1 ⟨⟨"other", "t2", "TABLE", "", 51, 73⟩, by decide⟩,
   (h.1 (by decide) (by decide)).2.1 (by decide),
   h2.2 (by decide)⟩

end utils

/-! ## Database rename -/

namespace utils

theorem dropLiteral_eq_some (lit : List Char) :
    ∀ (text rest : List Char), dropLiteral lit text = some rest ↔ text = lit ++ rest := by
  induction lit with
  | nil =>
    intro text rest
    simp [dropLiteral, eq_comm]
  | cons l ls ih =>
    intro text rest
    cases text with
    | nil => simp [dropLiteral]
    | cons c cs =>
      unfold dropLiteral
      by_cases hlc : l = c
      · subst hlc
        simp [ih]
      · have hb : (l == c) = false := by simpa using hlc
        simp only [hb, Bool.false_eq_true, if_false, List.cons_append, List.cons.injEq]
        constructor
        · intro h
          cases h
        · intro h
          exact absurd h.1.symm hlc

theorem matchAtStart_sound (oldName text group1 : List Char)
    (h : matchAtStart oldName text = some group1) :
    group1 ∈ terminators
      ∧ ∃ post, text = (databaseKeyword ++ oldName ++ group1) ++ post := by
  unfold matchAtStart at h
  cases hd : dropLiteral (databaseKeyword ++ oldName) text with
  | none =>
    rw [hd] at h
    cases h
  | some rest =>
    rw [hd] at h
    have hmem := List.mem_of_find?_eq_some h
    have hp := List.find?_some h
    obtain ⟨post, hpost⟩ := Option.isSome_iff_exists.mp hp
    refine ⟨hmem, post, ?_⟩
    rw [(dropLiteral_eq_some _ _ _).mp hd, (dropLiteral_eq_some _ _ _).mp hpost]
    simp only [List.append_assoc]

theorem matchAtStart_complete (oldName term post : List Char) (hterm : term ∈ terminators) :
    (matchAtStart oldName ((databaseKeyword ++ oldName ++ term) ++ post)).isSome = true := by
  unfold matchAtStart
  have hd : dropLiteral (databaseKeyword ++ oldName)
      ((databaseKeyword ++ oldName ++ term) ++ post) = some (term ++ post) := by
    rw [dropLiteral_eq_some]
    simp only [List.append_assoc]
  rw [hd]
  change (terminators.find? (fun t => (dropLiteral t (term ++ post)).isSome)).isSome = true
  rw [List.find?_isSome]
  exact ⟨term, hterm, by
    rw [Option.isSome_iff_exists]
    exact ⟨post, (dropLiteral_eq_some _ _ _).mpr rfl⟩⟩

theorem replaceAllLoop_no_match (oldName template : List Char) (text : List Char) :
    (∀ pre t, text = pre ++ t → matchAtStart oldName t = none) →
      replaceAllLoop oldName template 0 text = text := by
  induction text with
  | nil => intro _; rfl
  | cons c cs ih =>
    intro h
    unfold replaceAllLoop
    rw [h [] (c :: cs) rfl]
    simp only
    rw [ih (fun pre t ht => h (c :: pre) t (by rw [ht]; rfl))]

/-- The occurrences of the pattern are decided by trying a match at the start
of every suffix of the text. -/
theorem occursIn_iff (oldName text : String) :
    occursIn oldName text
      ↔ ∃ pre t, text.data = pre ++ t ∧ (matchAtStart oldName.data t).isSome = true := by
  constructor
  · rintro ⟨pre, post, term, hterm, htext⟩
    refine ⟨pre, (databaseKeyword ++ oldName.data ++ term) ++ post, ?_,
      matchAtStart_complete oldName.data term post hterm⟩
    rw [htext, List.append_assoc]
  · rintro ⟨pre, t, htext, hm⟩
    obtain ⟨g, hg⟩ := Option.isSome_iff_exists.mp hm
    obtain ⟨hterm, post, hpost⟩ := matchAtStart_sound oldName.data t g hg
    refine ⟨pre, post, g, hterm, ?_⟩
    rw [htext, hpost]
    simp only [List.append_assoc]

theorem not_occursIn_of_tails (oldName text : String)
    (h : text.data.tails.all (fun t => (matchAtStart oldName.data t).isNone) = true) :
    ¬ occursIn oldName text := by
  rw [occursIn_iff]
  rintro ⟨pre, t, htext, hm⟩
  rw [List.all_eq_true] at h
  have ht : t ∈ text.data.tails := by
    rw [List.mem_tails, htext]
    exact List.suffix_append pre t
  have := h t ht
  rw [Option.isNone_iff_eq_none] at this
  rw [this] at hm
  cases hm

theorem replaceAllString_no_occurrence (oldName src repl : String)
    (h : ¬ occursIn oldName src) : ReplaceAllString oldName src repl = src := by
  unfold ReplaceAllString
  rw [replaceAllLoop_no_match]
  intro pre t ht
  by_contra hne
  apply h
  rw [occursIn_iff]
  exact ⟨pre, t, ht, by
    cases hm : matchAtStart oldName.data t with
    | none => exact absurd hm hne
    | some g => rfl⟩

/-- C19: `SubstituteRedirectDatabaseInStatements` returns as many statements,
in the same order, with `Schema`, `Name`, `ObjectType` and `ReferenceObject`
of every statement unchanged; the `Statement` text is unchanged for every
statement whose object type is none of `DATABASE`, `DATABASE GUC` and
`DATABASE METADATA`, and for every statement whose text has no occurrence of
`DATABASE <oldName>` immediately followed by one of the terminators. -/
theorem substituteRedirectDatabase_frame (statements : List StatementWithType)
    (oldName newName : String) :
    (SubstituteRedirectDatabaseInStatements statements oldName newName).length
        = statements.length
    ∧ ∀ (i : Nat) (s : StatementWithType), statements[i]? = some s →
        ∃ r, (SubstituteRedirectDatabaseInStatements statements oldName newName)[i]? = some r
          ∧ r.Schema = s.Schema ∧ r.Name = s.Name ∧ r.ObjectType = s.ObjectType
          ∧ r.ReferenceObject = s.ReferenceObject
          ∧ ((s.ObjectType ≠ "DATABASE" ∧ s.ObjectType ≠ "DATABASE GUC"
                ∧ s.ObjectType ≠ "DATABASE METADATA") → r.Statement = s.Statement)
          ∧ (¬ occursIn oldName s.Statement → r.Statement = s.Statement) := by
  unfold SubstituteRedirectDatabaseInStatements
  refine ⟨by simp, ?_⟩
  intro i s hs
  simp only [List.getElem?_map, hs, Option.map_some']
  refine ⟨_, rfl, ?_⟩
  by_cases hflag : (shouldReplace.lookup s.ObjectType).getD false = true
  · rw [if_pos hflag]
    refine ⟨rfl, rfl, rfl, rfl, ?_, ?_⟩
    · rintro ⟨h1, h2, h3⟩
      exfalso
      have hb1 : (s.ObjectType == "DATABASE") = false := by simpa using h1
      have hb2 : (s.ObjectType == "DATABASE GUC") = false := by simpa using h2
      have hb3 : (s.ObjectType == "DATABASE METADATA") = false := by simpa using h3
      simp [shouldReplace, List.lookup, hb1, hb2, hb3] at hflag
    · intro hno
      exact replaceAllString_no_occurrence oldName s.Statement _ hno
  · rw [if_neg hflag]
    exact ⟨rfl, rfl, rfl, rfl, fun _ => rfl, fun _ => rfl⟩

/-- Witness for C19: the old name `db` is only the beginning of the
identifier in `DATABASE db2;`, so the statement is returned unchanged. -/
theorem substituteRedirectDatabase_frame_witness :
    ∃ r, (SubstituteRedirectDatabaseInStatements
            [⟨"", "db2", "DATABASE", "", "CREATE DATABASE db2;"⟩] "db" "newdb")[0]? = some r
      ∧ r.Statement = "CREATE DATABASE db2;" := by
  obtain ⟨r, hr, _, _, _, _, _, hkeep⟩ :=
    (substituteRedirectDatabase_frame [⟨"", "db2", "DATABASE", "", "CREATE DATABASE db2;"⟩]
      "db" "newdb").2 0 ⟨"", "db2", "DATABASE", "", "CREATE DATABASE db2;"⟩ rfl
  exact ⟨r, hr, hkeep (not_occursIn_of_tails "db" "CREATE DATABASE db2;" (by decide))⟩

/-- C16, the code at a new name that holds a dollar sign: the new name is part
of the replacement template, so `$db` in `new$db` is read as a reference to a
group that the pattern does not have and is dropped. -/
theorem dollar_in_new_name_is_expanded :
    SubstituteRedirectDatabaseInStatements
        [⟨"", "olddb", "DATABASE", "", "CREATE DATABASE olddb TEMPLATE template0;"⟩]
        "olddb" "new$db"
      = [⟨"", "olddb", "DATABASE", "", "CREATE DATABASE new TEMPLATE template0;"⟩] := by
  decide

end utils

/-! ## The invariant under the writer discipline -/

namespace utils

theorem runSteps_keeps_order (steps : List WriterStep) :
    ∀ state : TOC × FileWithByteCount,
      (∀ ptr, entriesOrdered (state.1.deref ptr)) →
      (∀ ptr, ∀ e ∈ state.1.deref ptr, e.EndByte ≤ state.2.ByteCount) →
      state.2.ByteCount ≤ state.2.written.length →
      writerDiscipline state steps = true →
      ∃ final, runSteps state steps = some final
        ∧ (∀ ptr, entriesOrdered (final.1.deref ptr))
        ∧ (∀ ptr, ∀ e ∈ final.1.deref ptr, e.EndByte ≤ final.2.ByteCount)
        ∧ final.2.ByteCount ≤ final.2.written.length := by
  induction steps with
  | nil =>
    intro state hord hend hcount _
    exact ⟨state, rfl, hord, hend, hcount⟩
  | cons step rest ih =>
    intro state hord hend hcount hd
    cases step with
    | print text =>
      unfold writerDiscipline at hd
      simp only [Bool.and_eq_true, decide_eq_true_eq] at hd
      obtain ⟨hmono, hrest⟩ := hd
      unfold runSteps
      simp only [WriterStep.run]
      refine ih (state.1, state.2.MustPrint text) hord ?_ ?_ hrest
      · intro ptr e he
        exact Nat.le_trans (hend ptr e he) hmono
      · simp only [FileWithByteCount.MustPrint, List.length_append]
        exact Nat.le_trans (Nat.mod_le _ _) (Nat.add_le_add_right hcount _)
    | add schema name objectType referenceObject start sectionName =>
      unfold writerDiscipline at hd
      unfold runSteps
      simp only [WriterStep.run]
      cases hl : state.1.metadataEntryMap.lookup sectionName with
      | none => simp [hl] at hd
      | some ptr =>
        simp only [hl, TOC.AddMetadataEntry, Bool.and_eq_true, decide_eq_true_eq] at hd ⊢
        obtain ⟨⟨hstart, hlast⟩, hrest⟩ := hd
        refine ih (_, state.2) ?_ ?_ hcount hrest
        · intro q
          by_cases hq : ptr = q
          · subst hq
            rw [deref_assign]
            apply entriesOrdered_snoc _ _ (hord ptr) hstart
            intro last hlastEq
            rw [hlastEq] at hlast
            simpa using hlast
          · rw [deref_assign_ne _ _ _ _ hq]
            exact hord q
        · intro q e he
          by_cases hq : ptr = q
          · subst hq
            rw [deref_assign] at he
            rcases List.mem_append.mp he with he | he
            · exact hend ptr e he
            · rw [List.mem_singleton] at he
              subst he
              exact Nat.le_refl _
          · rw [deref_assign_ne _ _ _ _ hq] at he
            exact hend q e he

/-- C21: when the byte counter of the stream never decreases and every call
of `AddMetadataEntry` passes a start offset that is at least the byte counter
recorded by the previous call for the same section and strictly below the
byte counter at the time of the call, then in every section every entry has
`EndByte > StartByte`, consecutive entries satisfy
`e_i.EndByte ≤ e_(i+1).StartByte`, an earlier entry ends at or before the start
of every later one, and every `EndByte` is at most the final byte counter and
the final length of the stream. -/
theorem writer_discipline_keeps_toc_invariant (steps : List WriterStep)
    (hd : writerDiscipline (TOC.zero.InitializeEntryMap, ⟨[], 0⟩) steps = true) :
    ∃ toc file, runSteps (TOC.zero.InitializeEntryMap, ⟨[], 0⟩) steps = some (toc, file)
      ∧ ∀ ptr : EntriesPtr,
          (∀ e ∈ toc.deref ptr, e.EndByte > e.StartByte)
          ∧ (∀ (i : Nat) (a b : MetadataEntry),
              (toc.deref ptr)[i]? = some a → (toc.deref ptr)[i + 1]? = some b →
              a.EndByte ≤ b.StartByte)
          ∧ (∀ (i j : Nat) (a b : MetadataEntry), i < j →
              (toc.deref ptr)[i]? = some a → (toc.deref ptr)[j]? = some b →
              a.EndByte ≤ b.StartByte)
          ∧ (∀ e ∈ toc.deref ptr,
              e.EndByte ≤ file.ByteCount ∧ e.EndByte ≤ file.written.length) := by
  have hinit : ∀ ptr, entriesOrdered (TOC.zero.InitializeEntryMap.deref ptr) := by
    intro ptr
    cases ptr <;> exact ⟨fun e he => absurd he (List.not_mem_nil e), List.Pairwise.nil⟩
  have hinit2 : ∀ ptr, ∀ e ∈ TOC.zero.InitializeEntryMap.deref ptr,
      e.EndByte ≤ (⟨[], 0⟩ : FileWithByteCount).ByteCount := by
    intro ptr e he
    cases ptr <;> exact absurd he (List.not_mem_nil e)
  obtain ⟨final, hrun, hord, hend, hcount⟩ :=
    runSteps_keeps_order steps (TOC.zero.InitializeEntryMap, ⟨[], 0⟩) hinit hinit2
      (Nat.le_refl _) hd
  refine ⟨final.1, final.2, hrun, fun ptr => ?_⟩
  have hpair := (hord ptr).2
  rw [List.pairwise_iff_getElem] at hpair
  have hlt : ∀ (i j : Nat) (a b : MetadataEntry), i < j →
      (final.1.deref ptr)[i]? = some a → (final.1.deref ptr)[j]? = some b →
      a.EndByte ≤ b.StartByte := by
    intro i j a b hij hi hj
    obtain ⟨hi1, hi2⟩ := List.getElem?_eq_some_iff.mp hi
    obtain ⟨hj1, hj2⟩ := List.getElem?_eq_some_iff.mp hj
    subst hi2 hj2
    exact hpair i j hi1 hj1 hij
  refine ⟨(hord ptr).1, ?_, hlt, ?_⟩
  · intro i a b hi hj
    exact hlt i (i + 1) a b (Nat.lt_succ_self i) hi hj
  · intro e he
    exact ⟨hend ptr e he, Nat.le_trans (hend ptr e he) hcount⟩

/-- Witness for C21: two statements of the predata section with a comment
before each, and a statement of the postdata section after them. -/
theorem writer_discipline_keeps_toc_invariant_witness :
    ∃ toc file, runSteps (TOC.zero.InitializeEntryMap, ⟨[], 0⟩)
        [.print "-- t1\n", .print "CREATE TABLE public.t1;",
         .add "public" "t1" "TABLE" "" 6 "predata",
         .print "\n-- t2\n", .print "CREATE TABLE public.t2;",
         .add "public" "t2" "TABLE" "" 36 "predata",
         .print "CREATE INDEX i1 ON public.t1;",
         .add "public" "i1" "INDEX" "public.t1" 59 "postdata"] = some (toc, file)
      ∧ ∀ ptr : EntriesPtr,
          (∀ e ∈ toc.deref ptr, e.EndByte > e.StartByte)
          ∧ (∀ (i : Nat) (a b : MetadataEntry),
              (toc.deref ptr)[i]? = some a → (toc.deref ptr)[i + 1]? = some b →
              a.EndByte ≤ b.StartByte)
          ∧ (∀ (i j : Nat) (a b : MetadataEntry), i < j →
              (toc.deref ptr)[i]? = some a → (toc.deref ptr)[j]? = some b →
              a.EndByte ≤ b.StartByte)
          ∧ (∀ e ∈ toc.deref ptr,
              e.EndByte ≤ file.ByteCount ∧ e.EndByte ≤ file.written.length) :=
  writer_discipline_keeps_toc_invariant
    [.print "-- t1\n", .print "CREATE TABLE public.t1;",
     .add "public" "t1" "TABLE" "" 6 "predata",
     .print "\n-- t2\n", .print "CREATE TABLE public.t2;",
     .add "public" "t2" "TABLE" "" 36 "predata",
     .print "CREATE INDEX i1 ON public.t1;",
     .add "public" "i1" "INDEX" "public.t1" 59 "postdata"]
    (by decide)

end utils

/-! ## Re-applying the restore plan update -/

namespace backup

/-- C22: applying `PopulateRestorePlan` a second time, with the same changed
tables, tables and timestamp, to its own output gives a chain of length
`len(chain) + 2` whose last two entries carry the same timestamp, so the
second result differs from the first. -/
theorem populateRestorePlan_not_idempotent (timestamp : String) (changedTables : List Table)
    (chain : List history.RestorePlanEntry) (allTables : List Table) :
    (PopulateRestorePlan timestamp changedTables
        (PopulateRestorePlan timestamp changedTables chain allTables) allTables).length
      = chain.length + 2
    ∧ (∃ e1 e2,
        (PopulateRestorePlan timestamp changedTables
          (PopulateRestorePlan timestamp changedTables chain allTables) allTables)[chain.length]?
          = some e1
        ∧ (PopulateRestorePlan timestamp changedTables
            (PopulateRestorePlan timestamp changedTables chain allTables)
            allTables)[chain.length + 1]? = some e2
        ∧ e1.Timestamp = timestamp ∧ e2.Timestamp = timestamp)
    ∧ PopulateRestorePlan timestamp changedTables
        (PopulateRestorePlan timestamp changedTables chain allTables) allTables
      ≠ PopulateRestorePlan timestamp changedTables chain allTables := by
  have hlen1 : (PopulateRestorePlan timestamp changedTables chain allTables).length
      = chain.length + 1 := by
    rw [populate_eq]
    simp
  have hlen2 : (PopulateRestorePlan timestamp changedTables
      (PopulateRestorePlan timestamp changedTables chain allTables) allTables).length
      = chain.length + 2 := by
    rw [populate_eq timestamp changedTables
      (PopulateRestorePlan timestamp changedTables chain allTables) allTables]
    simp [hlen1]
  refine ⟨hlen2, ?_, ?_⟩
  · refine ⟨⟨timestamp, (changedTables.map Table.FQN).filter
        (specSurvives changedTables allTables)⟩, ⟨timestamp, changedTables.map Table.FQN⟩,
      ?_, ?_, rfl, rfl⟩
    · rw [populate_eq timestamp changedTables
      (PopulateRestorePlan timestamp changedTables chain allTables) allTables,
        List.getElem?_append_left (by simp [hlen1]), List.getElem?_map, populate_eq,
        List.getElem?_append_right (by simp)]
      simp
    · rw [populate_eq timestamp changedTables
      (PopulateRestorePlan timestamp changedTables chain allTables) allTables,
        List.getElem?_append_right (by simp [hlen1])]
      simp [hlen1]
  · intro heq
    have := congrArg List.length heq
    rw [hlen1, hlen2] at this
    omega

end backup

/-! ## Segment TOC and the zero-value TOC -/

namespace utils

theorem lookup_filter_ne (entries : List (Nat × SegmentDataEntry)) (oid other : Nat)
    (h : other ≠ oid) :
    (entries.filter (fun kv => kv.1 != oid)).lookup other = entries.lookup other := by
  induction entries with
  | nil => rfl
  | cons kv rest ih =>
    obtain ⟨k, v⟩ := kv
    by_cases hk : k = oid
    · subst hk
      have hb : (other == k) = false := by simpa using h
      simp [List.filter_cons, List.lookup, hb, ih]
    · have hb : (k != oid) = true := by simpa using hk
      simp only [List.filter_cons, hb, if_true, List.lookup]
      split <;> simp_all

theorem addSegmentDataEntry_eq (toc : SegmentTOC) (entries : List (Nat × SegmentDataEntry))
    (oid startByte endByte : Nat) (hmap : toc.DataEntries = some entries) :
    toc.AddSegmentDataEntry oid startByte endByte
      = some { toc with
          DataEntries := some ((oid, ⟨startByte, endByte⟩)
            :: entries.filter (fun kv => kv.1 != oid)) } := by
  unfold SegmentTOC.AddSegmentDataEntry
  rw [hmap]

/-- C23, counterexample: on the zero value `SegmentTOC{}`, whose map is nil,
`AddSegmentDataEntry` panics and no entry is recorded. -/
theorem addSegmentDataEntry_on_nil_map_panics :
    SegmentTOC.zero.AddSegmentDataEntry 1 0 10 = none := by
  decide

/-- C23, amended: on a SegmentTOC whose map is allocated,
`AddSegmentDataEntry(oid, startByte, endByte)` makes the entry of `oid` equal
to `{startByte, endByte}`, replacing an earlier entry of that id, leaves the
entry of every other id and `LastByteRead` unchanged, and leaves the map
allocated, so that a later addition for the same id is again what a lookup
returns. -/
theorem addSegmentDataEntry_frame (toc : SegmentTOC) (entries : List (Nat × SegmentDataEntry))
    (oid startByte endByte : Nat) (hmap : toc.DataEntries = some entries) :
    ∃ toc2, toc.AddSegmentDataEntry oid startByte endByte = some toc2
      ∧ toc2.entryOf oid = some ⟨startByte, endByte⟩
      ∧ (∀ other, other ≠ oid → toc2.entryOf other = toc.entryOf other)
      ∧ toc2.LastByteRead = toc.LastByteRead
      ∧ (∀ startByte2 endByte2, ∃ toc3,
          toc2.AddSegmentDataEntry oid startByte2 endByte2 = some toc3
          ∧ toc3.entryOf oid = some ⟨startByte2, endByte2⟩
          ∧ (∀ other, other ≠ oid → toc3.entryOf other = toc.entryOf other)) := by
  have h1 := addSegmentDataEntry_eq toc entries oid startByte endByte hmap
  refine ⟨_, h1, ?_, ?_, rfl, ?_⟩
  · simp [SegmentTOC.entryOf, List.lookup]
  · intro other hne
    have hb : (other == oid) = false := by simpa using hne
    simp [SegmentTOC.entryOf, List.lookup, hb, hmap, lookup_filter_ne _ _ _ hne]
  · intro startByte2 endByte2
    have h2 := addSegmentDataEntry_eq
      { toc with DataEntries := some ((oid, ⟨startByte, endByte⟩)
          :: entries.filter (fun kv => kv.1 != oid)) }
      ((oid, ⟨startByte, endByte⟩) :: entries.filter (fun kv => kv.1 != oid))
      oid startByte2 endByte2 rfl
    refine ⟨_, h2, ?_, ?_⟩
    · simp [SegmentTOC.entryOf, List.lookup]
    · intro other hne
      have hb : (other == oid) = false := by simpa using hne
      simp [SegmentTOC.entryOf, List.lookup, hb, hmap, List.filter_cons,
        lookup_filter_ne _ _ _ hne]

/-- Witness for the amended C23: an entry is added for id 7 to a map that
holds entries for the ids 7 and 9. -/
theorem addSegmentDataEntry_frame_witness :
    ∃ toc2, (⟨40, some [(7, ⟨0, 10⟩), (9, ⟨10, 20⟩)]⟩ : SegmentTOC).AddSegmentDataEntry 7 20 40
        = some toc2
      ∧ toc2.entryOf 7 = some ⟨20, 40⟩
      ∧ toc2.entryOf 9 = some ⟨10, 20⟩
      ∧ toc2.LastByteRead = 40 := by
  obtain ⟨toc2, h1, h2, h3, h4, _⟩ :=
    addSegmentDataEntry_frame ⟨40, some [(7, ⟨0, 10⟩), (9, ⟨10, 20⟩)]⟩
      [(7, ⟨0, 10⟩), (9, ⟨10, 20⟩)] 7 20 40 rfl
  exact ⟨toc2, h1, h2, (h3 9 (by decide)).trans (by decide), h4⟩

/-- C24, the code on the zero value `TOC{}`: without `InitializeEntryMap` the
map is nil, the lookup of `predata` gives a nil pointer and `AddPredataEntry`
panics on its dereference, so no entry is recorded; after
`InitializeEntryMap` the same call records the entry at index 0. -/
theorem addPredataEntry_on_zero_toc_panics :
    TOC.zero.AddPredataEntry "public" "##" "OPERATOR" "" 0
        ⟨"CREATE OPERATOR public.## (PROCEDURE = public.path_inter);".data, 58⟩ = none
    ∧ TOC.zero.InitializeEntryMap.AddPredataEntry "public" "##" "OPERATOR" "" 0
        ⟨"CREATE OPERATOR public.## (PROCEDURE = public.path_inter);".data, 58⟩
      = some { TOC.zero.InitializeEntryMap with
          PredataEntries := [⟨"public", "##", "OPERATOR", "", 0, 58⟩] } := by
  decide

end utils
